import Mathlib

/-!
# Nexodus: peer route reconciliation and device listing

A shallow embedding of

* `internal/apex/route.go`: `handlePeerRoute`, `addChildPrefixRoute`;
* `cmd/nexctl/device.go`: `listOrgDevices`, `listAllDevices`;
* `internal/api/public/model_models_endpoint.go`: `ModelsEndpoint`;
* the security policy compiler of section 4.3 of the specification, whose source is not
  among these files and which is modelled from the specification.

The route functions talk to the operating system (`getInterfaceByIP`, `RunCommand`,
`AddRoute`, `RouteExists`) and to a logger.  The operating system is a `Host`: for each OS
call it answers from the calls issued so far and the call's arguments.  A `World` carries
the OS calls issued so far, each with the answer it got, and the lines logged so far; the
Go functions become functions from `World` to `World`.
-/

namespace Nexodus

/-! ## The operating system seen from `route.go` -/

/-- A Go `error`: `none` is `nil`, `some msg` an error whose text is `msg`. -/
abbrev GoError := Option String

/-- The OS calls `route.go` makes, with their arguments.
`getInterfaceByIP addr` stands for `getInterfaceByIP(net.ParseIP(addr))`. -/
inductive OsCall where
  | getInterfaceByIP (addr : String)
  | RunCommand (argv : List String)
  | AddRoute (dst : String) (dev : String)
  | RouteExists (dst : String)
  deriving DecidableEq, Repr

/-- An OS call together with what it returned. -/
inductive Event where
  | getInterfaceByIP (addr : String) (devName : String) (err : GoError)
  | RunCommand (argv : List String) (out : String) (err : GoError)
  | AddRoute (dst : String) (dev : String) (err : GoError)
  | RouteExists (dst : String) (found : Bool) (err : GoError)
  deriving DecidableEq, Repr

/-- The call of an event, its result forgotten. -/
def Event.call : Event → OsCall
  | .getInterfaceByIP addr _ _ => .getInterfaceByIP addr
  | .RunCommand argv _ _ => .RunCommand argv
  | .AddRoute dst dev _ => .AddRoute dst dev
  | .RouteExists dst _ _ => .RouteExists dst

/-- The error an event's call returned. -/
def Event.err : Event → GoError
  | .getInterfaceByIP _ _ err => err
  | .RunCommand _ _ err => err
  | .AddRoute _ _ err => err
  | .RouteExists _ _ err => err

/-- The calls that change the host's routing table: a command run through `RunCommand`
(`route.go` only runs `route ... delete ...`) and `AddRoute`. -/
def OsCall.isMutating : OsCall → Bool
  | .RunCommand _ => true
  | .AddRoute _ _ => true
  | _ => false

/-- Is the call a `RouteExists`? -/
def OsCall.isRouteExists : OsCall → Bool
  | .RouteExists _ => true
  | _ => false

/-- Is the call a `RunCommand`?  The only command `route.go` runs is the route delete. -/
def OsCall.isRunCommand : OsCall → Bool
  | .RunCommand _ => true
  | _ => false

/-- The destination of an existence check. -/
def Event.checked : Event → Option String
  | .RouteExists dst _ _ => some dst
  | _ => none

/-- The destination of an existence check whose boolean was `false`. -/
def Event.absent : Event → Option String
  | .RouteExists dst false _ => some dst
  | _ => none

/-- The destination and device of a route add. -/
def Event.added : Event → Option (String × String)
  | .AddRoute dst dev _ => some (dst, dev)
  | _ => none

/-- Does the call name the route destination `p`? -/
def OsCall.mentions (p : String) : OsCall → Bool
  | .getInterfaceByIP _ => false
  | .RunCommand argv => decide (p ∈ argv)
  | .AddRoute dst _ => decide (dst = p)
  | .RouteExists dst => decide (dst = p)

/-- The host: what each OS call returns, given the calls issued before it.  Every
run of a deterministic caller against any operating system is the run against some `Host`. -/
structure Host where
  getInterfaceByIP : List OsCall → String → String × GoError
  RunCommand : List OsCall → List String → String × GoError
  AddRoute : List OsCall → String → String → GoError
  RouteExists : List OsCall → String → Bool × GoError

/-- The host that answers as `h` does, except that no route delete, route add or
existence check returns an error. -/
def Host.withoutFailures (h : Host) : Host where
  getInterfaceByIP := h.getInterfaceByIP
  RunCommand := fun hist argv => ((h.RunCommand hist argv).1, none)
  AddRoute := fun _ _ _ => none
  RouteExists := fun hist dst => ((h.RouteExists hist dst).1, none)

/-- Logger levels used by `route.go`. -/
inductive Level where
  | debug | info | warn | error
  deriving DecidableEq, Repr

/-- One line handed to `ax.logger`. -/
structure LogLine where
  level : Level
  msg : String
  deriving DecidableEq, Repr

/-- The effects so far: OS calls with their results, oldest first, and logged lines. -/
structure World where
  events : List Event
  logs : List LogLine
  deriving DecidableEq, Repr

/-- The calls issued so far. -/
def World.history (w : World) : List OsCall := w.events.map Event.call

/-- The events of `after` that were not yet in `before`. -/
def issued (before after : World) : List Event := after.events.drop before.events.length

/-- The lines of `after` that were not yet in `before`. -/
def logged (before after : World) : List LogLine := after.logs.drop before.logs.length

/-- `ax.logger.<Level>f(...)`, the message already formatted. -/
def World.log (w : World) (level : Level) (msg : String) : World :=
  { w with logs := w.logs ++ [⟨level, msg⟩] }

/-- `getInterfaceByIP(net.ParseIP(addr))` against `host`. -/
def getInterfaceByIP (host : Host) (addr : String) (w : World) : (String × GoError) × World :=
  let r := host.getInterfaceByIP w.history addr
  (r, { w with events := w.events ++ [Event.getInterfaceByIP addr r.1 r.2] })

/-- `RunCommand(argv...)` against `host`. -/
def RunCommand (host : Host) (argv : List String) (w : World) : (String × GoError) × World :=
  let r := host.RunCommand w.history argv
  (r, { w with events := w.events ++ [Event.RunCommand argv r.1 r.2] })

/-- `AddRoute(dst, dev)` against `host`. -/
def AddRoute (host : Host) (dst dev : String) (w : World) : GoError × World :=
  let r := host.AddRoute w.history dst dev
  (r, { w with events := w.events ++ [Event.AddRoute dst dev r] })

/-- `RouteExists(dst)` against `host`. -/
def RouteExists (host : Host) (dst : String) (w : World) : (Bool × GoError) × World :=
  let r := host.RouteExists w.history dst
  (r, { w with events := w.events ++ [Event.RouteExists dst r.1 r.2] })

/-! ## `route.go` -/

/-- Package-level names `route.go` uses and does not declare: the strings
`Darwin.String()`, `Linux.String()`, `Windows.String()` and the interface names
`wgIface`, `darwinIface`. -/
structure Consts where
  Darwin : String
  Linux : String
  Windows : String
  wgIface : String
  darwinIface : String
  deriving DecidableEq, Repr

/-- The fields of `Apex` that `route.go` reads. -/
structure Apex where
  os : String
  wgLocalAddress : String
  deriving DecidableEq, Repr

/-- The field of `wgPeerConfig` that `route.go` reads. -/
structure wgPeerConfig where
  AllowedIPs : List String
  deriving DecidableEq, Repr

/-- The argument list of the route delete in `handlePeerRoute`:
`RunCommand("route", "-q", "-n", "delete", "-inet", allowedIP, "-interface", devName)`. -/
def routeDeleteArgv (allowedIP devName : String) : List String :=
  ["route", "-q", "-n", "delete", "-inet", allowedIP, "-interface", devName]

/-- Body of the Darwin loop of `handlePeerRoute` (route.go lines 18-24). -/
def handlePeerRoute.darwinBody (host : Host) (devName : String) (w : World)
    (allowedIP : String) : World :=
  let (r, w) := RunCommand host (routeDeleteArgv allowedIP devName) w
  let w := match r.2 with
    | some e => w.log .debug ("no route deleted: " ++ e)
    | none => w
  let (err, w) := AddRoute host allowedIP devName w
  match err with
  | some e => w.log .debug e
  | none => w

/-- Body of the Linux loop of `handlePeerRoute` (route.go lines 29-37). -/
def handlePeerRoute.linuxBody (k : Consts) (host : Host) (w : World)
    (allowedIP : String) : World :=
  let (r, w) := RouteExists host allowedIP w
  let w := match r.2 with
    | some e => w.log .info e
    | none => w
  if !r.1 then
    let (err, w) := AddRoute host allowedIP k.wgIface w
    match err with
    | some e => w.log .error ("route add failed: " ++ e)
    | none => w
  else w

/-- Body of the Windows loop of `handlePeerRoute` (route.go lines 42-44). -/
def handlePeerRoute.windowsBody (k : Consts) (host : Host) (w : World)
    (allowedIP : String) : World :=
  let (err, w) := AddRoute host allowedIP k.wgIface w
  match err with
  | some e => w.log .debug ("route add failed: " ++ e)
  | none => w

/-- The function `handlePeerRoute` of route.go: a `switch` on `ax.os` whose cases are tried
in the order Darwin, Linux, Windows; no case, no effect. -/
def handlePeerRoute (k : Consts) (host : Host) (ax : Apex) (cfg : wgPeerConfig)
    (w : World) : World :=
  if ax.os = k.Darwin then
    let (r, w) := getInterfaceByIP host ax.wgLocalAddress w
    let w := match r.2 with
      | some e => w.log .debug
          ("failed to find the darwin interface with the address [ " ++ ax.wgLocalAddress
            ++ " ] " ++ e)
      | none => w
    cfg.AllowedIPs.foldl (handlePeerRoute.darwinBody host r.1) w
  else if ax.os = k.Linux then
    cfg.AllowedIPs.foldl (handlePeerRoute.linuxBody k host) w
  else if ax.os = k.Windows then
    cfg.AllowedIPs.foldl (handlePeerRoute.windowsBody k host) w
  else w

/-- The function `addChildPrefixRoute` of route.go. -/
def addChildPrefixRoute (k : Consts) (host : Host) (ax : Apex) (childPrefix : String)
    (w : World) : World :=
  let dev := if ax.os = k.Darwin then k.darwinIface else k.wgIface
  let (r, w) := RouteExists host childPrefix w
  let w := match r.2 with
    | some e => w.log .warn e
    | none => w
  if r.1 then
    w.log .debug ("unable to add the child-prefix route [ " ++ childPrefix
      ++ " ] as it already exists on this linux host")
  else
    let (err, w) := AddRoute host childPrefix dev w
    match err with
    | some e => w.log .info ("error adding the child prefix route: " ++ e)
    | none => w

/-- The `switch` of `handlePeerRoute` takes the Darwin case. -/
def onDarwin (k : Consts) (ax : Apex) : Prop := ax.os = k.Darwin

/-- The `switch` of `handlePeerRoute` takes the Linux case. -/
def onLinux (k : Consts) (ax : Apex) : Prop := ax.os ≠ k.Darwin ∧ ax.os = k.Linux

/-- The `switch` of `handlePeerRoute` takes the Windows case. -/
def onWindows (k : Consts) (ax : Apex) : Prop :=
  ax.os ≠ k.Darwin ∧ ax.os ≠ k.Linux ∧ ax.os = k.Windows

instance (k : Consts) (ax : Apex) : Decidable (onDarwin k ax) := by
  unfold onDarwin; infer_instance

instance (k : Consts) (ax : Apex) : Decidable (onLinux k ax) := by
  unfold onLinux; infer_instance

instance (k : Consts) (ax : Apex) : Decidable (onWindows k ax) := by
  unfold onWindows; infer_instance

/-! ## `model_models_endpoint.go` and the endpoint loop of `device.go` -/

/-- The struct `ModelsEndpoint`; `Distance` is an `int32` that no code here computes with. -/
structure ModelsEndpoint where
  Address : String
  Distance : Int
  Source : String
  deriving DecidableEq, Repr

/-- Body of the endpoint loop of `listOrgDevices` (device.go lines 40-44), on the pair
`(localIp, reflexiveIp4)`. -/
def listOrgDevices.endpointBody (st : String × List String) (endpoint : ModelsEndpoint) :
    String × List String :=
  if endpoint.Source = "local" then (endpoint.Address, st.2)
  else (st.1, st.2 ++ [endpoint.Address])

/-- The endpoint loop of `listOrgDevices` (device.go lines 37-45): `localIp` starts as the
empty string, `reflexiveIp4` as the nil slice; the result is `(localIp, reflexiveIp4)`. -/
def listOrgDevices.scanEndpoints (endpoints : List ModelsEndpoint) : String × List String :=
  endpoints.foldl listOrgDevices.endpointBody ("", [])

/-! ## Properties of traces -/

/-- Every route add in `evs` is on the device `dev` and stands right after the existence
check of the same destination, and that check reported the route absent. -/
def AddsGuarded (dev : String) (evs : List Event) : Prop :=
  ∀ pre e post, evs = pre ++ e :: post → ∀ dst dev' err, e = Event.AddRoute dst dev' err →
    dev' = dev ∧ ∃ pre' err', pre = pre' ++ [Event.RouteExists dst false err']

/-! ## Traces of the loops -/

/-- The events of a loop over `ps` whose body, entered after the calls `hist` with the
element `p`, issues the events `step hist p`. -/
def loopEvents (step : List OsCall → String → List Event) :
    List OsCall → List String → List Event
  | _, [] => []
  | hist, p :: ps =>
      step hist p ++ loopEvents step (hist ++ (step hist p).map Event.call) ps

/-- The events of one pass of the Darwin loop entered after the calls `hist`. -/
def darwinStep (host : Host) (devName : String) (hist : List OsCall) (p : String) :
    List Event :=
  [Event.RunCommand (routeDeleteArgv p devName)
      (host.RunCommand hist (routeDeleteArgv p devName)).1
      (host.RunCommand hist (routeDeleteArgv p devName)).2,
   Event.AddRoute p devName
      (host.AddRoute (hist ++ [OsCall.RunCommand (routeDeleteArgv p devName)]) p devName)]

/-- The events of one pass of the Linux loop entered after the calls `hist`. -/
def linuxStep (k : Consts) (host : Host) (hist : List OsCall) (p : String) : List Event :=
  Event.RouteExists p (host.RouteExists hist p).1 (host.RouteExists hist p).2 ::
    if (host.RouteExists hist p).1 then []
    else [Event.AddRoute p k.wgIface
      (host.AddRoute (hist ++ [OsCall.RouteExists p]) p k.wgIface)]

/-- The events of one pass of the Windows loop entered after the calls `hist`. -/
def windowsStep (k : Consts) (host : Host) (hist : List OsCall) (p : String) : List Event :=
  [Event.AddRoute p k.wgIface (host.AddRoute hist p k.wgIface)]

/-! ## Example hosts -/

/-- The routing table of the example host after one more call: `AddRoute` enters the
destination, the route delete of `handlePeerRoute` removes it, any other call leaves the
table as it is. -/
def idealHost.step (table : List String) : OsCall → List String
  | .AddRoute dst _ => if dst ∈ table then table else table ++ [dst]
  | .RunCommand ["route", "-q", "-n", "delete", "-inet", dst, "-interface", _] =>
      table.filter (fun r => r ≠ dst)
  | _ => table

/-- An example host on which every call succeeds: it starts with the routes `table`, keeps
a routing table through the adds and deletes it receives, reports a destination present
exactly when it is in the table, and resolves every address to the interface `devName`. -/
def idealHost (table : List String) (devName : String) : Host where
  getInterfaceByIP := fun _ _ => (devName, none)
  RunCommand := fun _ _ => ("", none)
  AddRoute := fun _ _ _ => none
  RouteExists := fun hist dst => (decide (dst ∈ hist.foldl idealHost.step table), none)

/-- An example host on which every call fails: no interface is found, every route delete
and route add returns an error, and the existence check reports `found` with an error. -/
def failingHost (found : Bool) : Host where
  getInterfaceByIP := fun _ _ => ("", some "no interface found")
  RunCommand := fun _ _ => ("", some "exit status 1")
  AddRoute := fun _ _ _ => some "route add failed"
  RouteExists := fun _ _ => (found, some "route lookup failed")

/-- Example values of the package-level names. -/
def exampleConsts : Consts := ⟨"darwin", "linux", "windows", "wg0", "utun8"⟩

/-- The world before any effect. -/
def World.empty : World := ⟨[], []⟩

/-! ## `device.go` -/

/-- The fields of `ModelsDevice` that `device.go` reads.  The struct is declared in a file
other than the ones embedded here: `Relay` is printed with `%t` and is a `Bool`,
`Endpoints` is ranged over as `ModelsEndpoint`s, and every other field is passed to `%s`
and holds the text `%s` prints for it. -/
structure ModelsDevice where
  Id : String
  Hostname : String
  PublicKey : String
  OrganizationId : String
  AllowedIps : String
  TunnelIp : String
  TunnelIpV6 : String
  ChildPrefix : String
  OrganizationPrefix : String
  OrganizationPrefixV6 : String
  EndpointLocalAddressIp4 : String
  Os : String
  SecurityGroupId : String
  Relay : Bool
  Endpoints : List ModelsEndpoint
  deriving DecidableEq, Repr

/-- The two calls of `c.DevicesApi` that `device.go` makes, each with the result of its
`Execute()`: the devices, or the error. -/
structure APIClient where
  ListDevicesInOrganization : String → Except String (List ModelsDevice)
  ListDevices : Except String (List ModelsDevice)

/-- Package-level names `device.go` uses and does not declare: the output encodings
`encodeColumn` and `encodeNoHeader`. -/
structure Encodings where
  encodeColumn : String
  encodeNoHeader : String
  deriving DecidableEq, Repr

/-- One call `fmt.Fprintf(w, format, args...)` on the tab writer: the format string and
the text of each argument. -/
structure Fprintf where
  format : String
  args : List String
  deriving DecidableEq, Repr

/-- How a listing function ends: `log.Fatal(err)` on a failed API call, the lines written
to the tab writer (then flushed, and `nil` returned), or the devices handed to
`FormatOutput` with the encoding. -/
inductive Outcome where
  | fatal (msg : String)
  | table (writes : List Fprintf)
  | formatOutput (encodeOut : String) (devices : List ModelsDevice)
  deriving DecidableEq, Repr

/-- The text of `fmt.Sprintf("%t", b)`. -/
def fmtBool (b : Bool) : String := if b then "true" else "false"

/-- The text `%s` prints for a `[]string`: the elements between square brackets,
separated by one blank. -/
def fmtStrings (l : List String) : String := "[" ++ " ".intercalate l ++ "]"

/-- Body of the device loop of `listOrgDevices` (device.go lines 37-52), on the lines
written so far. -/
def listOrgDevices.deviceBody (fullDisplay : Bool) (fs : String) (w : List Fprintf)
    (dev : ModelsDevice) : List Fprintf :=
  let localIp := (listOrgDevices.scanEndpoints dev.Endpoints).1
  let reflexiveIp4 := (listOrgDevices.scanEndpoints dev.Endpoints).2
  if !fullDisplay then
    w ++ [⟨fs, [dev.Id, dev.Hostname, "[" ++ dev.TunnelIp ++ " " ++ dev.TunnelIpV6 ++ "]",
      dev.OrganizationId, fmtBool dev.Relay]⟩]
  else
    w ++ [⟨fs, [dev.Id, dev.Hostname, localIp, dev.PublicKey, dev.OrganizationId,
      localIp, dev.AllowedIps, dev.TunnelIp, dev.TunnelIpV6, dev.ChildPrefix,
      dev.OrganizationPrefix, dev.OrganizationPrefixV6, fmtStrings reflexiveIp4,
      dev.EndpointLocalAddressIp4, dev.Os, dev.SecurityGroupId, fmtBool dev.Relay]⟩]

/-- The function `listOrgDevices` of device.go. -/
def listOrgDevices (enc : Encodings) (c : APIClient) (organizationID : String)
    (fullDisplay : Bool) (encodeOut : String) : Outcome :=
  match c.ListDevicesInOrganization organizationID with
  | .error err => .fatal err
  | .ok devices =>
    if encodeOut = enc.encodeColumn ∨ encodeOut = enc.encodeNoHeader then
      let w : List Fprintf := []
      let fs :=
        if fullDisplay then
          "%s\t%s\t%s\t%s\t%s\t%s\t%s\t%s\t%s\t%s\t%s\t%s\t%s\t%s\t%s\t%s\t%s\n"
        else "%s\t%s\t%s\t%s\t%s\n"
      let w :=
        if encodeOut ≠ enc.encodeNoHeader ∧ !fullDisplay then
          w ++ [⟨fs, ["DEVICE ID", "HOSTNAME", "TUNNEL IPS", "ORGANIZATION ID", "RELAY"]⟩]
        else w
      let w :=
        if encodeOut ≠ enc.encodeNoHeader ∧ fullDisplay then
          w ++ [⟨fs, ["DEVICE ID", "HOSTNAME",
            "ENDPOINT IP", "PUBLIC KEY", "ORGANIZATION ID",
            "LOCAL IP", "ALLOWED IPS", "TUNNEL IPV4", "TUNNEL IPV6",
            "CHILD PREFIX", "ORG PREFIX IPV4", "ORG PREFIX IPV6",
            "REFLEXIVE IPv4", "ENDPOINT LOCAL IPv4", "OS", "SECURITY GROUP ID", "RELAY"]⟩]
        else w
      .table (devices.foldl (listOrgDevices.deviceBody fullDisplay fs) w)
    else .formatOutput encodeOut devices

/-- Body of the endpoint loop of `listAllDevices` (device.go lines 94-98), on the pair
`(localIp, reflexiveIp4)`. -/
def listAllDevices.endpointBody (st : String × List String) (endpoint : ModelsEndpoint) :
    String × List String :=
  if endpoint.Source = "local" then (endpoint.Address, st.2)
  else (st.1, st.2 ++ [endpoint.Address])

/-- The endpoint loop of `listAllDevices` (device.go lines 91-99). -/
def listAllDevices.scanEndpoints (endpoints : List ModelsEndpoint) : String × List String :=
  endpoints.foldl listAllDevices.endpointBody ("", [])

/-- Body of the device loop of `listAllDevices` (device.go lines 91-106), on the lines
written so far. -/
def listAllDevices.deviceBody (fullDisplay : Bool) (fs : String) (w : List Fprintf)
    (dev : ModelsDevice) : List Fprintf :=
  let localIp := (listAllDevices.scanEndpoints dev.Endpoints).1
  let reflexiveIp4 := (listAllDevices.scanEndpoints dev.Endpoints).2
  if !fullDisplay then
    w ++ [⟨fs, [dev.Id, dev.Hostname, "[" ++ dev.TunnelIp ++ " " ++ dev.TunnelIpV6 ++ "]",
      dev.OrganizationId, fmtBool dev.Relay]⟩]
  else
    w ++ [⟨fs, [dev.Id, dev.Hostname, localIp, dev.PublicKey, dev.OrganizationId,
      localIp, dev.AllowedIps, dev.TunnelIp, dev.TunnelIpV6, dev.ChildPrefix,
      dev.OrganizationPrefix, dev.OrganizationPrefixV6, fmtStrings reflexiveIp4,
      dev.EndpointLocalAddressIp4, dev.Os, dev.SecurityGroupId, fmtBool dev.Relay]⟩]

/-- The function `listAllDevices` of device.go. -/
def listAllDevices (enc : Encodings) (c : APIClient) (fullDisplay : Bool)
    (encodeOut : String) : Outcome :=
  match c.ListDevices with
  | .error err => .fatal err
  | .ok devices =>
    if encodeOut = enc.encodeColumn ∨ encodeOut = enc.encodeNoHeader then
      let w : List Fprintf := []
      let fs :=
        if fullDisplay then
          "%s\t%s\t%s\t%s\t%s\t%s\t%s\t%s\t%s\t%s\t%s\t%s\t%s\t%s\t%s\t%s\t%s\n"
        else "%s\t%s\t%s\t%s\t%s\n"
      let w :=
        if encodeOut ≠ enc.encodeNoHeader ∧ !fullDisplay then
          w ++ [⟨fs, ["DEVICE ID", "HOSTNAME", "TUNNEL IPS", "ORGANIZATION ID", "RELAY"]⟩]
        else w
      let w :=
        if encodeOut ≠ enc.encodeNoHeader ∧ fullDisplay then
          w ++ [⟨fs, ["DEVICE ID", "HOSTNAME",
            "ENDPOINT IP", "PUBLIC KEY", "ORGANIZATION ID",
            "LOCAL IP", "ALLOWED IPS", "TUNNEL IPV4", "TUNNEL IPV6",
            "CHILD PREFIX", "ORG PREFIX IPV4", "ORG PREFIX IPV6",
            "REFLEXIVE IPv4", "ENDPOINT LOCAL IPv4", "OS", "SECURITY GROUP ID", "RELAY"]⟩]
        else w
      .table (devices.foldl (listAllDevices.deviceBody fullDisplay fs) w)
    else .formatOutput encodeOut devices

/-- Example values of the output encodings. -/
def exampleEncodings : Encodings := ⟨"column", "no-header"⟩

/-- An example device with a reflexive, a local and a second reflexive endpoint. -/
def exampleDevice : ModelsDevice where
  Id := "dev-1"
  Hostname := "node1"
  PublicKey := "pk1"
  OrganizationId := "org-1"
  AllowedIps := "[100.100.0.1/32]"
  TunnelIp := "100.100.0.1"
  TunnelIpV6 := "200::1"
  ChildPrefix := "[]"
  OrganizationPrefix := "100.100.0.0/16"
  OrganizationPrefixV6 := "200::/64"
  EndpointLocalAddressIp4 := "192.168.1.5"
  Os := "linux"
  SecurityGroupId := "sg-1"
  Relay := false
  Endpoints := [⟨"203.0.113.7:51820", 12, "reflexive"⟩, ⟨"192.168.1.5:51820", 0, "local"⟩,
    ⟨"198.51.100.9:40000", 30, "reflexive"⟩]

/-- An example API client: both listings return the one example device. -/
def exampleClient : APIClient where
  ListDevicesInOrganization := fun _ => .ok [exampleDevice]
  ListDevices := .ok [exampleDevice]

/-- The full-display format string: 17 `%s` verbs separated by tabs, then a newline. -/
def fullFormat : String := "\t".intercalate (List.replicate 17 "%s") ++ "\n"

/-- What a full-display table of `devices` looks like, for the endpoint loop `scan`: at most
one header line, written exactly when `withHeader` holds, with 17 columns of which the
third is `ENDPOINT IP` and the sixth `LOCAL IP`; then one line per device, in order, each
with 17 columns of which the third and the sixth are the local IP the loop selected; every
line is written with the 17-verb format. -/
def FullDisplayTable (scan : List ModelsEndpoint → String × List String)
    (devices : List ModelsDevice) (withHeader : Prop) (o : Outcome) : Prop :=
  ∃ (header : List Fprintf) (row : ModelsDevice → Fprintf),
    o = Outcome.table (header ++ devices.map row)
      ∧ (withHeader → header.length = 1)
      ∧ (¬ withHeader → header = [])
      ∧ (∀ h ∈ header, h.format = fullFormat ∧ h.args.length = 17
          ∧ h.args[2]? = some "ENDPOINT IP" ∧ h.args[5]? = some "LOCAL IP")
      ∧ ∀ dev, (row dev).format = fullFormat ∧ (row dev).args.length = 17
          ∧ (row dev).args[2]? = some (scan dev.Endpoints).1
          ∧ (row dev).args[5]? = some (scan dev.Endpoints).1

/-- The line a full display writes for `dev` with the format `fs`, for the endpoint loop
`scan`. -/
def fullRow (scan : List ModelsEndpoint → String × List String) (fs : String)
    (dev : ModelsDevice) : Fprintf :=
  ⟨fs, [dev.Id, dev.Hostname, (scan dev.Endpoints).1, dev.PublicKey, dev.OrganizationId,
    (scan dev.Endpoints).1, dev.AllowedIps, dev.TunnelIp, dev.TunnelIpV6, dev.ChildPrefix,
    dev.OrganizationPrefix, dev.OrganizationPrefixV6, fmtStrings (scan dev.Endpoints).2,
    dev.EndpointLocalAddressIp4, dev.Os, dev.SecurityGroupId, fmtBool dev.Relay]⟩

/-! ## The security policy compiler (spec section 4.3)

The compiler lives in a file of the repository that is not among the embedded ones; only
its integration test `security_group_test.go` is.  The definitions of this section follow
sections 3 and 4.3 of the specification. -/

/-- Modelled from the spec: the `protocol` enum of `SecurityRule` (section 3); the
declaring file is missing. -/
inductive Protocol where
  | tcp | udp | icmpv4 | icmpv6 | ipv4 | ipv6 | all
  deriving DecidableEq, Repr

/-- Modelled from the spec: the address family of an address specifier (section 3). -/
inductive Family where
  | v4 | v6
  deriving DecidableEq, Repr

/-- Modelled from the spec: the width in bits of an address of the family. -/
def Family.bits : Family → Nat
  | .v4 => 32
  | .v6 => 128

/-- Modelled from the spec: an IP address, as its family and its value as a number. -/
structure IPAddr where
  family : Family
  value : Nat
  deriving DecidableEq, Repr

/-- Modelled from the spec: an address specifier (section 3), one of a single IP, a CIDR
and an inclusive range `A-B`. -/
inductive AddrSpec where
  | ip (a : IPAddr)
  | cidr (base : IPAddr) (len : Nat)
  | range (lo hi : IPAddr)
  deriving DecidableEq, Repr

/-- Modelled from the spec: the addresses a specifier stands for (section 4.3 step 1): a
single IP is a one-element set, a CIDR the addresses that share its leading `len` bits, a
range the addresses from `lo` to `hi` inclusive. -/
def AddrSpec.contains : AddrSpec → IPAddr → Bool
  | .ip a, x => decide (x = a)
  | .cidr base len, x =>
      decide (x.family = base.family) &&
        decide (x.value / 2 ^ (base.family.bits - len)
          = base.value / 2 ^ (base.family.bits - len))
  | .range lo hi, x =>
      decide (x.family = lo.family) && decide (x.family = hi.family) &&
        decide (lo.value ≤ x.value) && decide (x.value ≤ hi.value)

/-- Modelled from the spec: `SecurityRule` (section 3); ports are integers, 0 meaning
any. -/
structure SecurityRule where
  protocol : Protocol
  fromPort : Int
  toPort : Int
  ipRanges : List AddrSpec
  deriving DecidableEq, Repr

/-- Modelled from the spec: `SecurityGroup` (section 3). -/
structure SecurityGroup where
  id : String
  organizationId : String
  inboundRules : List SecurityRule
  outboundRules : List SecurityRule
  deriving DecidableEq, Repr

/-- Modelled from the spec: the transport protocol of a packet, as far as the protocols
of section 3 tell packets apart. -/
inductive Transport where
  | tcp | udp | icmp | other
  deriving DecidableEq, Repr

/-- Modelled from the spec: the traffic a rule is matched against: the transport protocol,
the port, and the remote address (the source for inbound traffic, the destination for
outbound traffic), whose family is the packet's family. -/
structure Packet where
  transport : Transport
  port : Int
  remote : IPAddr
  deriving DecidableEq, Repr

/-- Modelled from the spec: what a rule of the compiled chain does with the traffic it
matches. -/
inductive Verdict where
  | accept | drop
  deriving DecidableEq, Repr

/-- Modelled from the spec: a rule of a compiled chain (section 4.3 step 4): an address-set,
protocol and port-range match, and a verdict. -/
structure FilterRule where
  ipRanges : List AddrSpec
  protocol : Protocol
  fromPort : Int
  toPort : Int
  verdict : Verdict
  deriving DecidableEq, Repr

/-- Modelled from the spec: the address match; an empty `ipRanges` matches any address
(section 3). -/
def matchesAddr (ipRanges : List AddrSpec) (p : Packet) : Bool :=
  ipRanges.isEmpty || ipRanges.any (fun a => a.contains p.remote)

/-- Modelled from the spec: the protocol match (section 4.3 step 2): `all` matches every
protocol, `ipv4`/`ipv6` constrain the address family only, `icmpv4`/`icmpv6` restrict to
ICMP of that family, `tcp`/`udp` to that transport. -/
def matchesProtocol : Protocol → Packet → Bool
  | .all, _ => true
  | .ipv4, p => decide (p.remote.family = .v4)
  | .ipv6, p => decide (p.remote.family = .v6)
  | .icmpv4, p => decide (p.transport = .icmp) && decide (p.remote.family = .v4)
  | .icmpv6, p => decide (p.transport = .icmp) && decide (p.remote.family = .v6)
  | .tcp, p => decide (p.transport = .tcp)
  | .udp, p => decide (p.transport = .udp)

/-- Modelled from the spec: the port match (section 4.3 step 2): only `tcp`/`udp` look at
the port, and `fromPort == toPort == 0` is any port. -/
def matchesPort (protocol : Protocol) (fromPort toPort : Int) (p : Packet) : Bool :=
  match protocol with
  | .tcp | .udp =>
      (decide (fromPort = 0) && decide (toPort = 0)) ||
        (decide (fromPort ≤ p.port) && decide (p.port ≤ toPort))
  | _ => true

/-- Modelled from the spec: a compiled rule matches traffic when its address set, its
protocol and its port range all match. -/
def FilterRule.matchesPacket (r : FilterRule) (p : Packet) : Bool :=
  matchesAddr r.ipRanges p && matchesProtocol r.protocol p
    && matchesPort r.protocol r.fromPort r.toPort p

/-- Modelled from the spec: the verdict of a chain on a packet is the verdict of its first
matching rule; `none` when no rule matches. -/
def evalChain : List FilterRule → Packet → Option Verdict
  | [], _ => none
  | r :: rs, p => if r.matchesPacket p then some r.verdict else evalChain rs p

/-- Modelled from the spec: the single "accept all" rule of an empty rule list
(section 4.3 step 3). -/
def acceptAll : FilterRule := ⟨[], .all, 0, 0, .accept⟩

/-- Modelled from the spec: the default-deny rule that ends the chain of a non-empty rule
list (section 4.3 step 4). -/
def denyAll : FilterRule := ⟨[], .all, 0, 0, .drop⟩

/-- Modelled from the spec: the accept rule of a declared rule (section 4.3 step 4). -/
def compileRule (r : SecurityRule) : FilterRule :=
  ⟨r.ipRanges, r.protocol, r.fromPort, r.toPort, .accept⟩

/-- Modelled from the spec: the chain of one direction (section 4.3 steps 3 and 4): an
empty rule list compiles to the single accept-all rule, a non-empty one to one accept rule
per declared rule followed by the default-deny rule. -/
def compileDirection (rules : List SecurityRule) : List FilterRule :=
  if rules.isEmpty then [acceptAll] else rules.map compileRule ++ [denyAll]

/-- Modelled from the spec: a compiled ruleset, one chain per direction (section 4.3
step 5). -/
structure Ruleset where
  inbound : List FilterRule
  outbound : List FilterRule
  deriving DecidableEq, Repr

/-- Modelled from the spec: `compile(SecurityGroup) -> Ruleset` (section 4.3); the two
directions are compiled independently. -/
def compile (g : SecurityGroup) : Ruleset :=
  ⟨compileDirection g.inboundRules, compileDirection g.outboundRules⟩

/-- Modelled from the spec: a chain permits a packet when its verdict on it is accept. -/
def permits (chain : List FilterRule) (p : Packet) : Bool :=
  decide (evalChain chain p = some Verdict.accept)

/-- The IPv4 address `a.b.c.d`. -/
def ipv4 (a b c d : Nat) : IPAddr := ⟨.v4, a * 16777216 + b * 65536 + c * 256 + d⟩

/-- The first inbound rule of `TestSecurityGroupsExtended` (security_group_test.go lines
340-344): `udp`, ports 5000 to 6000, a CIDR, a range and a single address. -/
def exampleUdpRule : SecurityRule :=
  ⟨.udp, 5000, 6000,
    [.cidr (ipv4 100 64 0 0) 10, .range (ipv4 172 28 100 1) (ipv4 172 28 100 100),
     .ip (ipv4 192 168 168 100)]⟩

/-! ## Effects of the primitives and of the loop bodies -/

@[simp] theorem World.log_events (w : World) (l : Level) (m : String) :
    (w.log l m).events = w.events := rfl

@[simp] theorem World.log_history (w : World) (l : Level) (m : String) :
    (w.log l m).history = w.history := rfl

theorem World.history_of_events {w w' : World} {evs : List Event}
    (h : w'.events = w.events ++ evs) : w'.history = w.history ++ evs.map Event.call := by
  simp [World.history, h]

theorem issued_of_events {w w' : World} {evs : List Event}
    (h : w'.events = w.events ++ evs) : issued w w' = evs := by
  simp [issued, h]

theorem darwinBody_events (host : Host) (d : String) (w : World) (p : String) :
    (handlePeerRoute.darwinBody host d w p).events
      = w.events ++ darwinStep host d w.history p := by
  simp only [handlePeerRoute.darwinBody, RunCommand, AddRoute, darwinStep]
  split <;> split <;> simp [World.history, Event.call]

theorem linuxBody_events (k : Consts) (host : Host) (w : World) (p : String) :
    (handlePeerRoute.linuxBody k host w p).events
      = w.events ++ linuxStep k host w.history p := by
  simp only [handlePeerRoute.linuxBody, RouteExists, AddRoute, linuxStep]
  cases (host.RouteExists w.history p).1 <;> simp <;> split <;> (try split) <;>
    simp [World.history, Event.call]

theorem windowsBody_events (k : Consts) (host : Host) (w : World) (p : String) :
    (handlePeerRoute.windowsBody k host w p).events
      = w.events ++ windowsStep k host w.history p := by
  simp only [handlePeerRoute.windowsBody, AddRoute, windowsStep]
  split <;> simp [World.history, Event.call]

/-- A loop whose body appends `step` to the events appends `loopEvents step`. -/
theorem foldl_events (body : World → String → World)
    (step : List OsCall → String → List Event)
    (hbody : ∀ w p, (body w p).events = w.events ++ step w.history p)
    (ps : List String) (w : World) :
    (ps.foldl body w).events = w.events ++ loopEvents step w.history ps := by
  induction ps generalizing w with
  | nil => simp [loopEvents]
  | cons p ps ih =>
    rw [List.foldl_cons, ih, hbody, World.history_of_events (hbody w p)]
    simp [loopEvents]

/-- Two loops whose passes issue the same calls issue the same calls. -/
theorem loopEvents_calls_congr (s t : List OsCall → String → List Event)
    (h : ∀ hist p, (s hist p).map Event.call = (t hist p).map Event.call)
    (ps : List String) (hist : List OsCall) :
    (loopEvents s hist ps).map Event.call = (loopEvents t hist ps).map Event.call := by
  induction ps generalizing hist with
  | nil => simp [loopEvents]
  | cons p ps ih => simp [loopEvents, h, ih]

/-- A loop whose every pass names its element names every element. -/
theorem loopEvents_mentions (s : List OsCall → String → List Event)
    (h : ∀ hist p, ∃ e ∈ s hist p, e.call.mentions p = true)
    (ps : List String) (hist : List OsCall) :
    ∀ p ∈ ps, ∃ e ∈ loopEvents s hist ps, e.call.mentions p = true := by
  induction ps generalizing hist with
  | nil => simp
  | cons q ps ih =>
    intro p hp
    rcases List.mem_cons.mp hp with rfl | hp
    · obtain ⟨e, he, hm⟩ := h hist p
      exact ⟨e, by simp [loopEvents, he], hm⟩
    · obtain ⟨e, he, hm⟩ := ih (hist ++ (s hist q).map Event.call) p hp
      exact ⟨e, by simp [loopEvents, he], hm⟩

/-! ## The events of `handlePeerRoute`, case by case -/

theorem handlePeerRoute_darwin_events (k : Consts) (host : Host) (ax : Apex)
    (cfg : wgPeerConfig) (w : World) (hos : onDarwin k ax) :
    (handlePeerRoute k host ax cfg w).events = w.events ++
      (Event.getInterfaceByIP ax.wgLocalAddress
          (host.getInterfaceByIP w.history ax.wgLocalAddress).1
          (host.getInterfaceByIP w.history ax.wgLocalAddress).2 ::
        loopEvents (darwinStep host (host.getInterfaceByIP w.history ax.wgLocalAddress).1)
          (w.history ++ [OsCall.getInterfaceByIP ax.wgLocalAddress]) cfg.AllowedIPs) := by
  unfold onDarwin at hos
  simp only [handlePeerRoute, hos, if_true, getInterfaceByIP]
  rw [foldl_events _ _ (darwinBody_events host _)]
  split <;> simp [World.history, Event.call]

theorem handlePeerRoute_linux_events (k : Consts) (host : Host) (ax : Apex)
    (cfg : wgPeerConfig) (w : World) (hos : onLinux k ax) :
    (handlePeerRoute k host ax cfg w).events
      = w.events ++ loopEvents (linuxStep k host) w.history cfg.AllowedIPs := by
  obtain ⟨hd, hl⟩ := hos
  unfold handlePeerRoute
  rw [if_neg hd, if_pos hl]
  exact foldl_events _ _ (linuxBody_events k host) _ _

theorem handlePeerRoute_windows_events (k : Consts) (host : Host) (ax : Apex)
    (cfg : wgPeerConfig) (w : World) (hos : onWindows k ax) :
    (handlePeerRoute k host ax cfg w).events
      = w.events ++ loopEvents (windowsStep k host) w.history cfg.AllowedIPs := by
  obtain ⟨hd, hl, hw⟩ := hos
  unfold handlePeerRoute
  rw [if_neg hd, if_neg hl, if_pos hw]
  exact foldl_events _ _ (windowsBody_events k host) _ _

/-! ## What the loops issue -/

theorem darwinStep_calls (host : Host) (d : String) (hist : List OsCall) (p : String) :
    (darwinStep host d hist p).map Event.call
      = [OsCall.RunCommand (routeDeleteArgv p d), OsCall.AddRoute p d] := rfl

theorem windowsStep_calls (k : Consts) (host : Host) (hist : List OsCall) (p : String) :
    (windowsStep k host hist p).map Event.call = [OsCall.AddRoute p k.wgIface] := rfl

theorem linuxStep_calls (k : Consts) (host : Host) (hist : List OsCall) (p : String) :
    (linuxStep k host hist p).map Event.call
      = OsCall.RouteExists p ::
          if (host.RouteExists hist p).1 then [] else [OsCall.AddRoute p k.wgIface] := by
  unfold linuxStep
  cases (host.RouteExists hist p).1 <;> simp [Event.call]

theorem loopEvents_darwin_calls (host : Host) (d : String) (ps : List String)
    (hist : List OsCall) :
    (loopEvents (darwinStep host d) hist ps).map Event.call
      = ps.flatMap (fun p => [OsCall.RunCommand (routeDeleteArgv p d), OsCall.AddRoute p d]) := by
  induction ps generalizing hist with
  | nil => simp [loopEvents]
  | cons p ps ih => simp [loopEvents, darwinStep_calls, ih]

theorem loopEvents_windows_calls (k : Consts) (host : Host) (ps : List String)
    (hist : List OsCall) :
    (loopEvents (windowsStep k host) hist ps).map Event.call
      = ps.map (fun p => OsCall.AddRoute p k.wgIface) := by
  induction ps generalizing hist with
  | nil => simp [loopEvents]
  | cons p ps ih => simp [loopEvents, windowsStep_calls, ih]

theorem loopEvents_linux_checked (k : Consts) (host : Host) (ps : List String)
    (hist : List OsCall) :
    (loopEvents (linuxStep k host) hist ps).filterMap Event.checked = ps := by
  induction ps generalizing hist with
  | nil => simp [loopEvents]
  | cons p ps ih =>
    simp only [loopEvents, List.filterMap_append, ih]
    unfold linuxStep
    cases (host.RouteExists hist p).1 <;> simp [Event.checked]

theorem loopEvents_linux_added (k : Consts) (host : Host) (ps : List String)
    (hist : List OsCall) :
    (loopEvents (linuxStep k host) hist ps).filterMap Event.added
      = ((loopEvents (linuxStep k host) hist ps).filterMap Event.absent).map
          (fun p => (p, k.wgIface)) := by
  induction ps generalizing hist with
  | nil => simp [loopEvents]
  | cons p ps ih =>
    simp only [loopEvents, List.filterMap_append, List.map_append, ih]
    unfold linuxStep
    cases (host.RouteExists hist p).1 <;> simp [Event.added, Event.absent]

theorem loopEvents_linux_no_command (k : Consts) (host : Host) (ps : List String)
    (hist : List OsCall) :
    ∀ e ∈ loopEvents (linuxStep k host) hist ps, e.call.isRunCommand = false := by
  induction ps generalizing hist with
  | nil => simp [loopEvents]
  | cons p ps ih =>
    intro e he
    simp only [loopEvents, List.mem_append] at he
    rcases he with he | he
    · unfold linuxStep at he
      cases hfound : (host.RouteExists hist p).1 <;> simp [hfound] at he
      · rcases he with rfl | rfl <;> rfl
      · subst he; rfl
    · exact ih _ e he

theorem addsGuarded_nil (dev : String) : AddsGuarded dev [] := by
  intro pre e post h
  simp at h

theorem addsGuarded_append (dev : String) (A B : List Event)
    (hA : AddsGuarded dev A) (hB : AddsGuarded dev B)
    (hhead : ∀ e rest, B = e :: rest → e.added = none) : AddsGuarded dev (A ++ B) := by
  intro pre e post h dst dev' err he
  rcases List.append_eq_append_iff.mp h with ⟨a', h1, h2⟩ | ⟨c', h1, h2⟩
  · obtain ⟨hdev, pre', err', hpre⟩ := hB a' e post h2 dst dev' err he
    exact ⟨hdev, A ++ pre', err', by simp [h1, hpre]⟩
  · cases c' with
    | nil =>
      have := hhead e post (by simpa using h2.symm)
      simp [he, Event.added] at this
    | cons x c'' =>
      simp only [List.cons_append, List.cons.injEq] at h2
      obtain ⟨rfl, -⟩ := h2
      exact hA pre e c'' h1 dst dev' err he

theorem linuxStep_guarded (k : Consts) (host : Host) (hist : List OsCall) (p : String) :
    AddsGuarded k.wgIface (linuxStep k host hist p) := by
  intro pre e post h dst dev' err he
  unfold linuxStep at h
  cases hfound : (host.RouteExists hist p).1
  · simp only [hfound, Bool.false_eq_true, if_false] at h
    match pre, h with
    | [], h => simp [he] at h
    | [x], h =>
      simp only [List.cons_append, List.nil_append, List.cons.injEq] at h
      obtain ⟨rfl, h2, -⟩ := h
      rw [he] at h2
      simp only [Event.AddRoute.injEq] at h2
      obtain ⟨rfl, rfl, -⟩ := h2
      exact ⟨rfl, [], _, rfl⟩
    | _ :: _ :: pre'', h => simp at h
  · simp only [hfound, if_true] at h
    match pre, h with
    | [], h => simp [he] at h
    | _ :: pre'', h => simp at h

theorem loopEvents_linux_head (k : Consts) (host : Host) (ps : List String)
    (hist : List OsCall) :
    ∀ e rest, loopEvents (linuxStep k host) hist ps = e :: rest → e.added = none := by
  intro e rest h
  cases ps with
  | nil => simp [loopEvents] at h
  | cons p ps =>
    simp only [loopEvents, linuxStep, List.cons_append, List.cons.injEq] at h
    rw [← h.1]
    rfl

theorem loopEvents_linux_guarded (k : Consts) (host : Host) (ps : List String)
    (hist : List OsCall) :
    AddsGuarded k.wgIface (loopEvents (linuxStep k host) hist ps) := by
  induction ps generalizing hist with
  | nil => exact addsGuarded_nil _
  | cons p ps ih =>
    exact addsGuarded_append _ _ _ (linuxStep_guarded k host hist p) (ih _)
      (loopEvents_linux_head k host ps _)

/-- Each element of a Linux loop is found present by its check or is added. -/
theorem loopEvents_linux_present_or_added (k : Consts) (host : Host) (ps : List String)
    (hist : List OsCall) :
    ∀ p ∈ ps, (∃ err, Event.RouteExists p true err ∈ loopEvents (linuxStep k host) hist ps)
      ∨ ∃ err, Event.AddRoute p k.wgIface err ∈ loopEvents (linuxStep k host) hist ps := by
  induction ps generalizing hist with
  | nil => simp
  | cons q ps ih =>
    intro p hp
    rcases List.mem_cons.mp hp with rfl | hp
    · cases hfound : (host.RouteExists hist p).1
      · exact Or.inr ⟨host.AddRoute (hist ++ [OsCall.RouteExists p]) p k.wgIface,
          by simp [loopEvents, linuxStep, hfound]⟩
      · exact Or.inl ⟨(host.RouteExists hist p).2, by simp [loopEvents, linuxStep, hfound]⟩
    · rcases ih (hist ++ (linuxStep k host hist q).map Event.call) p hp with ⟨err, h⟩ | ⟨err, h⟩
      · exact Or.inl ⟨err, by simp [loopEvents, h]⟩
      · exact Or.inr ⟨err, by simp [loopEvents, h]⟩

/-- A Linux loop over destinations that every check reports present, after `base` and any
further calls that are not mutating, issues only the checks. -/
theorem loopEvents_linux_all_present (k : Consts) (host : Host) (ps : List String)
    (base ext : List OsCall) (hext : ∀ c ∈ ext, c.isMutating = false)
    (h : ∀ p ∈ ps, ∀ ext', (∀ c ∈ ext', c.isMutating = false) →
      (host.RouteExists (base ++ ext') p).1 = true) :
    (loopEvents (linuxStep k host) (base ++ ext) ps).map Event.call
      = ps.map (fun p => OsCall.RouteExists p) := by
  induction ps generalizing ext with
  | nil => simp [loopEvents]
  | cons q ps ih =>
    have hq := h q (List.mem_cons_self _ _) ext hext
    have hstep : linuxStep k host (base ++ ext) q
        = [Event.RouteExists q true (host.RouteExists (base ++ ext) q).2] := by
      simp [linuxStep, hq]
    simp only [loopEvents, List.map_append, List.map_cons, hstep, List.map_nil, Event.call,
      List.append_assoc]
    rw [ih (ext ++ [OsCall.RouteExists q])]
    · simp
    · intro c hc
      rcases List.mem_append.mp hc with hc | hc
      · exact hext c hc
      · rw [List.mem_singleton.mp hc]; rfl
    · intro p hp ext' hext'
      exact h p (List.mem_cons_of_mem _ hp) ext' hext'

/-- Calls that are not mutating leave the routing table of `idealHost` as it is. -/
theorem idealHost_foldl_step (ext : List OsCall) (hext : ∀ c ∈ ext, c.isMutating = false)
    (table : List String) : ext.foldl idealHost.step table = table := by
  induction ext generalizing table with
  | nil => rfl
  | cons c ext ih =>
    have hc := hext c (List.mem_cons_self _ _)
    have hstep : idealHost.step table c = table := by
      cases c <;> simp_all [OsCall.isMutating, idealHost.step]
    rw [List.foldl_cons, hstep]
    exact ih (fun c hc => hext c (List.mem_cons_of_mem _ hc)) table

/-- The logs of a loop whose body only appends to the logs extend the logs before it. -/
theorem foldl_logs (body : World → String → World)
    (hbody : ∀ w p, w.logs <+: (body w p).logs) (ps : List String) (w : World) :
    w.logs <+: (ps.foldl body w).logs := by
  induction ps generalizing w with
  | nil => exact List.prefix_refl _
  | cons p ps ih => exact List.IsPrefix.trans (hbody w p) (ih (body w p))

theorem darwinBody_logs (host : Host) (d : String) (w : World) (p : String) :
    w.logs <+: (handlePeerRoute.darwinBody host d w p).logs := by
  simp only [handlePeerRoute.darwinBody, RunCommand, AddRoute]
  split <;> split <;> simp [World.log]

/-- The events `addChildPrefixRoute` issues. -/
theorem addChildPrefixRoute_events (k : Consts) (host : Host) (ax : Apex)
    (childPrefix : String) (w : World) :
    (addChildPrefixRoute k host ax childPrefix w).events = w.events ++
      (Event.RouteExists childPrefix (host.RouteExists w.history childPrefix).1
          (host.RouteExists w.history childPrefix).2 ::
        if (host.RouteExists w.history childPrefix).1 then []
        else [Event.AddRoute childPrefix (if ax.os = k.Darwin then k.darwinIface else k.wgIface)
          (host.AddRoute (w.history ++ [OsCall.RouteExists childPrefix]) childPrefix
            (if ax.os = k.Darwin then k.darwinIface else k.wgIface))]) := by
  simp only [addChildPrefixRoute, RouteExists, AddRoute]
  cases (host.RouteExists w.history childPrefix).1 <;> simp <;> split <;> (try split) <;>
    simp [World.history, Event.call]

/-! ## The claims on `handlePeerRoute` -/

/-- C1: on each of the three OS families, for every allowedIPs list and every host (every
assignment of errors to the route deletes, route adds and existence checks), the sequence
of OS calls `handlePeerRoute` issues is the sequence it issues on the host that answers
alike but never fails, and every allowedIP is named by one of the issued calls. -/
theorem handlePeerRoute_failures_keep_calls (k : Consts) (host : Host) (ax : Apex)
    (cfg : wgPeerConfig) (w : World)
    (hos : ax.os = k.Darwin ∨ ax.os = k.Linux ∨ ax.os = k.Windows) :
    (issued w (handlePeerRoute k host ax cfg w)).map Event.call
        = (issued w (handlePeerRoute k host.withoutFailures ax cfg w)).map Event.call
      ∧ ∀ p ∈ cfg.AllowedIPs,
          ∃ e ∈ issued w (handlePeerRoute k host ax cfg w), e.call.mentions p = true := by
  by_cases hd : ax.os = k.Darwin
  · have hD : onDarwin k ax := hd
    rw [issued_of_events (handlePeerRoute_darwin_events k host ax cfg w hD),
      issued_of_events (handlePeerRoute_darwin_events k host.withoutFailures ax cfg w hD)]
    constructor
    · simp only [List.map_cons, loopEvents_darwin_calls]
      rfl
    · intro p hp
      obtain ⟨e, he, hm⟩ := loopEvents_mentions
        (darwinStep host (host.getInterfaceByIP w.history ax.wgLocalAddress).1)
        (fun hist q => ⟨_, List.mem_cons_of_mem _ (List.mem_singleton_self _),
          by simp [Event.call, OsCall.mentions]⟩)
        cfg.AllowedIPs (w.history ++ [OsCall.getInterfaceByIP ax.wgLocalAddress]) p hp
      exact ⟨e, List.mem_cons_of_mem _ he, hm⟩
  · by_cases hl : ax.os = k.Linux
    · have hL : onLinux k ax := ⟨hd, hl⟩
      rw [issued_of_events (handlePeerRoute_linux_events k host ax cfg w hL),
        issued_of_events (handlePeerRoute_linux_events k host.withoutFailures ax cfg w hL)]
      constructor
      · apply loopEvents_calls_congr
        intro hist p
        rw [linuxStep_calls, linuxStep_calls]
        rfl
      · exact loopEvents_mentions _
          (fun hist q => ⟨_, List.mem_cons_self _ _, by simp [Event.call, OsCall.mentions]⟩)
          _ _
    · have hw : ax.os = k.Windows := by
        rcases hos with h | h | h
        · exact absurd h hd
        · exact absurd h hl
        · exact h
      have hW : onWindows k ax := ⟨hd, hl, hw⟩
      rw [issued_of_events (handlePeerRoute_windows_events k host ax cfg w hW),
        issued_of_events (handlePeerRoute_windows_events k host.withoutFailures ax cfg w hW)]
      constructor
      · rw [loopEvents_windows_calls, loopEvents_windows_calls]
      · exact loopEvents_mentions _
          (fun hist q => ⟨_, List.mem_singleton_self _, by simp [Event.call, OsCall.mentions]⟩)
          _ _

/-- C1 at a concrete input: on Linux, on a host where every call fails, two allowedIPs. -/
theorem handlePeerRoute_failures_keep_calls_witness :
    (issued World.empty (handlePeerRoute exampleConsts (failingHost false)
          ⟨"linux", "100.100.0.1"⟩ ⟨["10.0.0.1/32", "10.0.0.2/32"]⟩ World.empty)).map Event.call
        = (issued World.empty (handlePeerRoute exampleConsts (failingHost false).withoutFailures
          ⟨"linux", "100.100.0.1"⟩ ⟨["10.0.0.1/32", "10.0.0.2/32"]⟩ World.empty)).map Event.call
      ∧ ∀ p ∈ ["10.0.0.1/32", "10.0.0.2/32"],
          ∃ e ∈ issued World.empty (handlePeerRoute exampleConsts (failingHost false)
            ⟨"linux", "100.100.0.1"⟩ ⟨["10.0.0.1/32", "10.0.0.2/32"]⟩ World.empty),
            e.call.mentions p = true :=
  handlePeerRoute_failures_keep_calls exampleConsts (failingHost false)
    ⟨"linux", "100.100.0.1"⟩ ⟨["10.0.0.1/32", "10.0.0.2/32"]⟩ World.empty
    (Or.inr (Or.inl (by decide)))

/-- C2: on Linux, for every allowedIPs list and every host, the existence checks issued
are one per allowedIP in list order, the route adds issued are `AddRoute(p, wgIface)` for
exactly the checks whose boolean was `false` (whatever error came with it), in order, and
no command (no route delete) is run. -/
theorem handlePeerRoute_linux_checks_then_adds (k : Consts) (host : Host) (ax : Apex)
    (cfg : wgPeerConfig) (w : World) (hos : onLinux k ax) :
    (issued w (handlePeerRoute k host ax cfg w)).filterMap Event.checked = cfg.AllowedIPs
      ∧ (issued w (handlePeerRoute k host ax cfg w)).filterMap Event.added
          = ((issued w (handlePeerRoute k host ax cfg w)).filterMap Event.absent).map
              (fun p => (p, k.wgIface))
      ∧ ∀ e ∈ issued w (handlePeerRoute k host ax cfg w), e.call.isRunCommand = false := by
  rw [issued_of_events (handlePeerRoute_linux_events k host ax cfg w hos)]
  exact ⟨loopEvents_linux_checked k host _ _, loopEvents_linux_added k host _ _,
    loopEvents_linux_no_command k host _ _⟩

/-- C2 at a concrete input: the second of two allowedIPs is already routed. -/
theorem handlePeerRoute_linux_checks_then_adds_witness :
    (issued World.empty (handlePeerRoute exampleConsts (idealHost ["10.0.0.2/32"] "utun3")
        ⟨"linux", "100.100.0.1"⟩ ⟨["10.0.0.1/32", "10.0.0.2/32"]⟩ World.empty)).filterMap
        Event.checked = ["10.0.0.1/32", "10.0.0.2/32"]
      ∧ (issued World.empty (handlePeerRoute exampleConsts (idealHost ["10.0.0.2/32"] "utun3")
          ⟨"linux", "100.100.0.1"⟩ ⟨["10.0.0.1/32", "10.0.0.2/32"]⟩ World.empty)).filterMap
          Event.added
          = ((issued World.empty (handlePeerRoute exampleConsts
              (idealHost ["10.0.0.2/32"] "utun3") ⟨"linux", "100.100.0.1"⟩
              ⟨["10.0.0.1/32", "10.0.0.2/32"]⟩ World.empty)).filterMap Event.absent).map
              (fun p => (p, "wg0"))
      ∧ ∀ e ∈ issued World.empty (handlePeerRoute exampleConsts
          (idealHost ["10.0.0.2/32"] "utun3") ⟨"linux", "100.100.0.1"⟩
          ⟨["10.0.0.1/32", "10.0.0.2/32"]⟩ World.empty), e.call.isRunCommand = false :=
  handlePeerRoute_linux_checks_then_adds exampleConsts (idealHost ["10.0.0.2/32"] "utun3")
    ⟨"linux", "100.100.0.1"⟩ ⟨["10.0.0.1/32", "10.0.0.2/32"]⟩ World.empty
    ⟨by decide, by decide⟩

/-- C3: on Darwin, with `d` the device name `getInterfaceByIP` returned, the calls issued
after the interface lookup are exactly `delete(p1,d), add(p1,d), ..., delete(pn,d),
add(pn,d)` for the allowedIPs `[p1..pn]`, on every host: whatever the delete returned, the
add of the same destination on the same device follows it. -/
theorem handlePeerRoute_darwin_delete_then_add (k : Consts) (host : Host) (ax : Apex)
    (cfg : wgPeerConfig) (w : World) (hos : onDarwin k ax) :
    (issued w (handlePeerRoute k host ax cfg w)).map Event.call
      = OsCall.getInterfaceByIP ax.wgLocalAddress ::
          cfg.AllowedIPs.flatMap (fun p =>
            [OsCall.RunCommand
                (routeDeleteArgv p (host.getInterfaceByIP w.history ax.wgLocalAddress).1),
             OsCall.AddRoute p (host.getInterfaceByIP w.history ax.wgLocalAddress).1]) := by
  rw [issued_of_events (handlePeerRoute_darwin_events k host ax cfg w hos)]
  simp only [List.map_cons, loopEvents_darwin_calls]
  rfl

/-- C3 at a concrete input: two allowedIPs on a host where every delete and add fails. -/
theorem handlePeerRoute_darwin_delete_then_add_witness :
    (issued World.empty (handlePeerRoute exampleConsts (failingHost false)
        ⟨"darwin", "100.100.0.1"⟩ ⟨["10.0.0.1/32", "10.0.0.2/32"]⟩ World.empty)).map Event.call
      = [OsCall.getInterfaceByIP "100.100.0.1",
         OsCall.RunCommand ["route", "-q", "-n", "delete", "-inet", "10.0.0.1/32",
           "-interface", ""],
         OsCall.AddRoute "10.0.0.1/32" "",
         OsCall.RunCommand ["route", "-q", "-n", "delete", "-inet", "10.0.0.2/32",
           "-interface", ""],
         OsCall.AddRoute "10.0.0.2/32" ""] :=
  handlePeerRoute_darwin_delete_then_add exampleConsts (failingHost false)
    ⟨"darwin", "100.100.0.1"⟩ ⟨["10.0.0.1/32", "10.0.0.2/32"]⟩ World.empty (by decide)

/-- C4: on Windows, for every allowedIPs list and every host, the calls issued are exactly
one `AddRoute(p, wgIface)` per allowedIP in list order: no existence check and no route
delete, whether or not the route exists. -/
theorem handlePeerRoute_windows_adds_only (k : Consts) (host : Host) (ax : Apex)
    (cfg : wgPeerConfig) (w : World) (hos : onWindows k ax) :
    (issued w (handlePeerRoute k host ax cfg w)).map Event.call
      = cfg.AllowedIPs.map (fun p => OsCall.AddRoute p k.wgIface) := by
  rw [issued_of_events (handlePeerRoute_windows_events k host ax cfg w hos)]
  exact loopEvents_windows_calls k host _ _

/-- C4 at a concrete input: both allowedIPs are already routed on the host. -/
theorem handlePeerRoute_windows_adds_only_witness :
    (issued World.empty (handlePeerRoute exampleConsts
        (idealHost ["10.0.0.1/32", "10.0.0.2/32"] "utun3") ⟨"windows", "100.100.0.1"⟩
        ⟨["10.0.0.1/32", "10.0.0.2/32"]⟩ World.empty)).map Event.call
      = [OsCall.AddRoute "10.0.0.1/32" "wg0", OsCall.AddRoute "10.0.0.2/32" "wg0"] :=
  handlePeerRoute_windows_adds_only exampleConsts
    (idealHost ["10.0.0.1/32", "10.0.0.2/32"] "utun3") ⟨"windows", "100.100.0.1"⟩
    ⟨["10.0.0.1/32", "10.0.0.2/32"]⟩ World.empty ⟨by decide, by decide, by decide⟩

/-- C5, as the code has it: on Linux and on Windows no command (no route delete) is run;
on Linux every route add is `AddRoute(p, wgIface)` issued right after the existence check
of `p`, which reported the route absent, and every allowedIP is checked; on Windows a
route add is issued for every allowedIP and no existence check at all. -/
theorem handlePeerRoute_linux_guarded_windows_unchecked (k : Consts) (host : Host)
    (ax : Apex) (cfg : wgPeerConfig) (w : World) (hos : onLinux k ax ∨ onWindows k ax) :
    (∀ e ∈ issued w (handlePeerRoute k host ax cfg w), e.call.isRunCommand = false)
      ∧ (onLinux k ax →
          AddsGuarded k.wgIface (issued w (handlePeerRoute k host ax cfg w))
          ∧ (issued w (handlePeerRoute k host ax cfg w)).filterMap Event.checked
              = cfg.AllowedIPs)
      ∧ (onWindows k ax →
          (issued w (handlePeerRoute k host ax cfg w)).filterMap Event.added
              = cfg.AllowedIPs.map (fun p => (p, k.wgIface))
          ∧ ∀ e ∈ issued w (handlePeerRoute k host ax cfg w),
              e.call.isRouteExists = false) := by
  have hwin : onWindows k ax → ∀ e ∈ issued w (handlePeerRoute k host ax cfg w),
      ∃ p, e.call = OsCall.AddRoute p k.wgIface := by
    intro hW e he
    have hc : (issued w (handlePeerRoute k host ax cfg w)).map Event.call
        = cfg.AllowedIPs.map (fun p => OsCall.AddRoute p k.wgIface) := by
      rw [issued_of_events (handlePeerRoute_windows_events k host ax cfg w hW)]
      exact loopEvents_windows_calls k host _ _
    have : e.call ∈ (issued w (handlePeerRoute k host ax cfg w)).map Event.call :=
      List.mem_map_of_mem _ he
    rw [hc] at this
    obtain ⟨p, -, hp⟩ := List.mem_map.mp this
    exact ⟨p, hp.symm⟩
  refine ⟨?_, ?_, ?_⟩
  · rcases hos with hL | hW
    · rw [issued_of_events (handlePeerRoute_linux_events k host ax cfg w hL)]
      exact loopEvents_linux_no_command k host _ _
    · intro e he
      obtain ⟨p, hp⟩ := hwin hW e he
      rw [hp]; rfl
  · intro hL
    rw [issued_of_events (handlePeerRoute_linux_events k host ax cfg w hL)]
    exact ⟨loopEvents_linux_guarded k host _ _, loopEvents_linux_checked k host _ _⟩
  · intro hW
    refine ⟨?_, ?_⟩
    · rw [issued_of_events (handlePeerRoute_windows_events k host ax cfg w hW)]
      generalize w.history = hist
      induction cfg.AllowedIPs generalizing hist with
      | nil => simp [loopEvents]
      | cons p ps ih => simp [loopEvents, windowsStep, Event.added, ih]
    · intro e he
      obtain ⟨p, hp⟩ := hwin hW e he
      rw [hp]; rfl

/-- C5 at a concrete input: Linux, the second of two allowedIPs already routed. -/
theorem handlePeerRoute_linux_guarded_windows_unchecked_witness :
    onLinux exampleConsts ⟨"linux", "100.100.0.1"⟩
      ∧ AddsGuarded "wg0" (issued World.empty (handlePeerRoute exampleConsts
          (idealHost ["10.0.0.2/32"] "utun3") ⟨"linux", "100.100.0.1"⟩
          ⟨["10.0.0.1/32", "10.0.0.2/32"]⟩ World.empty))
      ∧ (issued World.empty (handlePeerRoute exampleConsts
          (idealHost ["10.0.0.2/32"] "utun3") ⟨"linux", "100.100.0.1"⟩
          ⟨["10.0.0.1/32", "10.0.0.2/32"]⟩ World.empty)).filterMap Event.checked
          = ["10.0.0.1/32", "10.0.0.2/32"] :=
  ⟨by decide,
   (handlePeerRoute_linux_guarded_windows_unchecked exampleConsts
      (idealHost ["10.0.0.2/32"] "utun3") ⟨"linux", "100.100.0.1"⟩
      ⟨["10.0.0.1/32", "10.0.0.2/32"]⟩ World.empty (Or.inl (by decide))).2.1 (by decide)⟩

/-- C5 as stated fails on Windows: with the route of the one allowedIP present on the host
(the existence check would report it), `handlePeerRoute` issues the route add, and the add
is not preceded by any existence check. -/
theorem handlePeerRoute_windows_adds_existing_route :
    onWindows exampleConsts ⟨"windows", "100.100.0.1"⟩
      ∧ ((idealHost ["10.0.0.1/32"] "utun3").RouteExists [] "10.0.0.1/32").1 = true
      ∧ (issued World.empty (handlePeerRoute exampleConsts (idealHost ["10.0.0.1/32"] "utun3")
          ⟨"windows", "100.100.0.1"⟩ ⟨["10.0.0.1/32"]⟩ World.empty)).map Event.call
          = [OsCall.AddRoute "10.0.0.1/32" "wg0"]
      ∧ ¬ AddsGuarded "wg0" (issued World.empty (handlePeerRoute exampleConsts
          (idealHost ["10.0.0.1/32"] "utun3") ⟨"windows", "100.100.0.1"⟩ ⟨["10.0.0.1/32"]⟩
          World.empty)) := by
  refine ⟨by decide, by decide, by decide, ?_⟩
  intro h
  obtain ⟨-, pre', err', hpre⟩ :=
    h [] (Event.AddRoute "10.0.0.1/32" "wg0" none) [] (by decide) "10.0.0.1/32" "wg0" none rfl
  simp at hpre

/-- C6, as the code has it (Linux only): let a first `handlePeerRoute` run on Linux in
which every call succeeds, on a host that afterwards, as long as no mutating call is
issued, reports present every destination the run added or found present; a second run
with the same `PeerConfig` issues one existence check per allowedIP and nothing else: no
route add, no route delete. -/
theorem handlePeerRoute_linux_second_run (k : Consts) (host : Host) (ax : Apex)
    (cfg : wgPeerConfig) (w : World) (hos : onLinux k ax)
    (hok : ∀ e ∈ issued w (handlePeerRoute k host ax cfg w), e.err = none)
    (hkeeps : ∀ p,
      (Event.AddRoute p k.wgIface none ∈ issued w (handlePeerRoute k host ax cfg w)
        ∨ Event.RouteExists p true none ∈ issued w (handlePeerRoute k host ax cfg w)) →
      ∀ ext, (∀ c ∈ ext, c.isMutating = false) →
        (host.RouteExists ((handlePeerRoute k host ax cfg w).history ++ ext) p).1 = true) :
    (issued (handlePeerRoute k host ax cfg w)
        (handlePeerRoute k host ax cfg (handlePeerRoute k host ax cfg w))).map Event.call
        = cfg.AllowedIPs.map (fun p => OsCall.RouteExists p)
      ∧ ∀ e ∈ issued (handlePeerRoute k host ax cfg w)
          (handlePeerRoute k host ax cfg (handlePeerRoute k host ax cfg w)),
          e.call.isMutating = false := by
  have hfirst := issued_of_events (handlePeerRoute_linux_events k host ax cfg w hos)
  have hcalls : (issued (handlePeerRoute k host ax cfg w)
      (handlePeerRoute k host ax cfg (handlePeerRoute k host ax cfg w))).map Event.call
      = cfg.AllowedIPs.map (fun p => OsCall.RouteExists p) := by
    rw [issued_of_events (handlePeerRoute_linux_events k host ax cfg _ hos)]
    have := loopEvents_linux_all_present k host cfg.AllowedIPs
      (handlePeerRoute k host ax cfg w).history [] (by simp)
    rw [List.append_nil] at this
    apply this
    intro p hp ext hext
    apply hkeeps p _ ext hext
    rcases loopEvents_linux_present_or_added k host cfg.AllowedIPs w.history p hp with
      ⟨err, h⟩ | ⟨err, h⟩
    · right
      rw [← hfirst] at h
      have := hok _ h
      simp only [Event.err] at this
      rw [this] at h
      exact h
    · left
      rw [← hfirst] at h
      have := hok _ h
      simp only [Event.err] at this
      rw [this] at h
      exact h
  refine ⟨hcalls, ?_⟩
  intro e he
  have : e.call ∈ cfg.AllowedIPs.map (fun p => OsCall.RouteExists p) := by
    rw [← hcalls]
    exact List.mem_map_of_mem _ he
  obtain ⟨p, -, hp⟩ := List.mem_map.mp this
  rw [← hp]
  rfl

/-- C6 at a concrete input: Linux, a host that keeps a routing table and already routes
the second of two allowedIPs; the first run adds the first one, the second run only
checks. -/
theorem handlePeerRoute_linux_second_run_witness :
    (issued World.empty (handlePeerRoute exampleConsts (idealHost ["10.0.0.2/32"] "utun3")
        ⟨"linux", "100.100.0.1"⟩ ⟨["10.0.0.1/32", "10.0.0.2/32"]⟩ World.empty)).map Event.call
        = [OsCall.RouteExists "10.0.0.1/32", OsCall.AddRoute "10.0.0.1/32" "wg0",
           OsCall.RouteExists "10.0.0.2/32"]
      ∧ (issued
          (handlePeerRoute exampleConsts (idealHost ["10.0.0.2/32"] "utun3")
            ⟨"linux", "100.100.0.1"⟩ ⟨["10.0.0.1/32", "10.0.0.2/32"]⟩ World.empty)
          (handlePeerRoute exampleConsts (idealHost ["10.0.0.2/32"] "utun3")
            ⟨"linux", "100.100.0.1"⟩ ⟨["10.0.0.1/32", "10.0.0.2/32"]⟩
            (handlePeerRoute exampleConsts (idealHost ["10.0.0.2/32"] "utun3")
              ⟨"linux", "100.100.0.1"⟩ ⟨["10.0.0.1/32", "10.0.0.2/32"]⟩
              World.empty))).map Event.call
          = [OsCall.RouteExists "10.0.0.1/32", OsCall.RouteExists "10.0.0.2/32"] := by
  refine ⟨by decide, ?_⟩
  refine (handlePeerRoute_linux_second_run exampleConsts (idealHost ["10.0.0.2/32"] "utun3")
    ⟨"linux", "100.100.0.1"⟩ ⟨["10.0.0.1/32", "10.0.0.2/32"]⟩ World.empty
    ⟨by decide, by decide⟩ (by decide) ?_).1
  intro p hp ext hext
  have hev : issued World.empty (handlePeerRoute exampleConsts
      (idealHost ["10.0.0.2/32"] "utun3") ⟨"linux", "100.100.0.1"⟩
      ⟨["10.0.0.1/32", "10.0.0.2/32"]⟩ World.empty)
      = [Event.RouteExists "10.0.0.1/32" false none, Event.AddRoute "10.0.0.1/32" "wg0" none,
         Event.RouteExists "10.0.0.2/32" true none] := by decide
  have hhist : (handlePeerRoute exampleConsts (idealHost ["10.0.0.2/32"] "utun3")
      ⟨"linux", "100.100.0.1"⟩ ⟨["10.0.0.1/32", "10.0.0.2/32"]⟩ World.empty).history
      = [OsCall.RouteExists "10.0.0.1/32", OsCall.AddRoute "10.0.0.1/32" "wg0",
         OsCall.RouteExists "10.0.0.2/32"] := by decide
  have htable : [OsCall.RouteExists "10.0.0.1/32", OsCall.AddRoute "10.0.0.1/32" "wg0",
      OsCall.RouteExists "10.0.0.2/32"].foldl idealHost.step ["10.0.0.2/32"]
      = ["10.0.0.2/32", "10.0.0.1/32"] := by decide
  rw [hhist]
  simp only [idealHost, List.foldl_append, htable, idealHost_foldl_step ext hext]
  rw [hev] at hp
  have hp' : p = "10.0.0.1/32" ∨ p = "10.0.0.2/32" := by
    simpa [exampleConsts] using hp
  rcases hp' with rfl | rfl <;> decide

/-- C6 as stated fails on Darwin and on Windows.  On a host that keeps a routing table and
on which every call succeeds, the first run leaves the allowedIP reported present, and the
second run with the same `PeerConfig` still issues mutating calls: on Darwin the route
delete and the route add, on Windows the route add. -/
theorem handlePeerRoute_second_run_mutates :
    (∀ e ∈ issued World.empty (handlePeerRoute exampleConsts (idealHost [] "utun3")
        ⟨"darwin", "100.100.0.1"⟩ ⟨["10.0.0.1/32"]⟩ World.empty), e.err = none)
      ∧ ((idealHost [] "utun3").RouteExists
          (handlePeerRoute exampleConsts (idealHost [] "utun3")
            ⟨"darwin", "100.100.0.1"⟩ ⟨["10.0.0.1/32"]⟩ World.empty).history
          "10.0.0.1/32").1 = true
      ∧ (issued
          (handlePeerRoute exampleConsts (idealHost [] "utun3")
            ⟨"darwin", "100.100.0.1"⟩ ⟨["10.0.0.1/32"]⟩ World.empty)
          (handlePeerRoute exampleConsts (idealHost [] "utun3")
            ⟨"darwin", "100.100.0.1"⟩ ⟨["10.0.0.1/32"]⟩
            (handlePeerRoute exampleConsts (idealHost [] "utun3")
              ⟨"darwin", "100.100.0.1"⟩ ⟨["10.0.0.1/32"]⟩ World.empty))).map Event.call
          = [OsCall.getInterfaceByIP "100.100.0.1",
             OsCall.RunCommand ["route", "-q", "-n", "delete", "-inet", "10.0.0.1/32",
               "-interface", "utun3"],
             OsCall.AddRoute "10.0.0.1/32" "utun3"]
      ∧ (∀ e ∈ issued World.empty (handlePeerRoute exampleConsts (idealHost [] "utun3")
          ⟨"windows", "100.100.0.1"⟩ ⟨["10.0.0.1/32"]⟩ World.empty), e.err = none)
      ∧ ((idealHost [] "utun3").RouteExists
          (handlePeerRoute exampleConsts (idealHost [] "utun3")
            ⟨"windows", "100.100.0.1"⟩ ⟨["10.0.0.1/32"]⟩ World.empty).history
          "10.0.0.1/32").1 = true
      ∧ (issued
          (handlePeerRoute exampleConsts (idealHost [] "utun3")
            ⟨"windows", "100.100.0.1"⟩ ⟨["10.0.0.1/32"]⟩ World.empty)
          (handlePeerRoute exampleConsts (idealHost [] "utun3")
            ⟨"windows", "100.100.0.1"⟩ ⟨["10.0.0.1/32"]⟩
            (handlePeerRoute exampleConsts (idealHost [] "utun3")
              ⟨"windows", "100.100.0.1"⟩ ⟨["10.0.0.1/32"]⟩ World.empty))).map Event.call
          = [OsCall.AddRoute "10.0.0.1/32" "wg0"] := by
  refine ⟨by decide, by decide, by decide, by decide, by decide, by decide⟩

/-! ## The claims on `addChildPrefixRoute` -/

/-- C7: for every value of `ax.os`, every child prefix and every host,
`addChildPrefixRoute` calls `RouteExists` exactly once, for the child prefix and as its
first call; when that check reports the route present, the check is the only OS call
issued (no `AddRoute`, no mutating call). -/
theorem addChildPrefixRoute_checks_once (k : Consts) (host : Host) (ax : Apex)
    (childPrefix : String) (w : World) :
    ((issued w (addChildPrefixRoute k host ax childPrefix w)).map Event.call).filter
        OsCall.isRouteExists = [OsCall.RouteExists childPrefix]
      ∧ ((issued w (addChildPrefixRoute k host ax childPrefix w)).map Event.call).head?
          = some (OsCall.RouteExists childPrefix)
      ∧ ((host.RouteExists w.history childPrefix).1 = true →
          (issued w (addChildPrefixRoute k host ax childPrefix w)).map Event.call
              = [OsCall.RouteExists childPrefix]
            ∧ ∀ e ∈ issued w (addChildPrefixRoute k host ax childPrefix w),
                e.call.isMutating = false) := by
  rw [issued_of_events (addChildPrefixRoute_events k host ax childPrefix w)]
  cases hfound : (host.RouteExists w.history childPrefix).1 <;>
    simp [Event.call, OsCall.isRouteExists, OsCall.isMutating]

/-- C7 at a concrete input: the child prefix is already routed on a Darwin host. -/
theorem addChildPrefixRoute_checks_once_witness :
    ((idealHost ["192.168.1.0/24"] "utun3").RouteExists [] "192.168.1.0/24").1 = true
      ∧ (issued World.empty (addChildPrefixRoute exampleConsts
          (idealHost ["192.168.1.0/24"] "utun3") ⟨"darwin", "100.100.0.1"⟩ "192.168.1.0/24"
          World.empty)).map Event.call = [OsCall.RouteExists "192.168.1.0/24"] :=
  ⟨by decide,
   ((addChildPrefixRoute_checks_once exampleConsts (idealHost ["192.168.1.0/24"] "utun3")
      ⟨"darwin", "100.100.0.1"⟩ "192.168.1.0/24" World.empty).2.2 (by decide)).1⟩

/-- C8: when the existence check reports the child prefix absent, with or without an
error, `addChildPrefixRoute` issues after the check exactly one call,
`AddRoute(childPrefix, dev)`, where `dev` is `darwinIface` when `ax.os` is the Darwin
string and `wgIface` for every other value of `ax.os`. -/
theorem addChildPrefixRoute_adds_when_absent (k : Consts) (host : Host) (ax : Apex)
    (childPrefix : String) (w : World)
    (habsent : (host.RouteExists w.history childPrefix).1 = false) :
    (issued w (addChildPrefixRoute k host ax childPrefix w)).map Event.call
      = [OsCall.RouteExists childPrefix,
         OsCall.AddRoute childPrefix (if ax.os = k.Darwin then k.darwinIface else k.wgIface)] := by
  rw [issued_of_events (addChildPrefixRoute_events k host ax childPrefix w)]
  simp [habsent, Event.call]

/-- C8 at a concrete input: on Darwin, the check reports absent together with an error. -/
theorem addChildPrefixRoute_adds_when_absent_witness :
    ((failingHost false).RouteExists [] "192.168.1.0/24") = (false, some "route lookup failed")
      ∧ (issued World.empty (addChildPrefixRoute exampleConsts (failingHost false)
          ⟨"darwin", "100.100.0.1"⟩ "192.168.1.0/24" World.empty)).map Event.call
          = [OsCall.RouteExists "192.168.1.0/24", OsCall.AddRoute "192.168.1.0/24" "utun8"] :=
  ⟨rfl, addChildPrefixRoute_adds_when_absent exampleConsts (failingHost false)
    ⟨"darwin", "100.100.0.1"⟩ "192.168.1.0/24" World.empty rfl⟩

/-! ## Interface resolution failure on Darwin -/

/-- C9, as the code has it: on Darwin, when `getInterfaceByIP` returns an error `msg`, the
failure is logged at debug level, as the first line logged, and nothing is skipped: with
`d` the device name returned along with the error, the route delete and the route add on
`d` are issued for every allowedIP. -/
theorem handlePeerRoute_darwin_lookup_failure (k : Consts) (host : Host) (ax : Apex)
    (cfg : wgPeerConfig) (w : World) (msg : String) (hos : onDarwin k ax)
    (herr : (host.getInterfaceByIP w.history ax.wgLocalAddress).2 = some msg) :
    (logged w (handlePeerRoute k host ax cfg w)).head?
        = some ⟨Level.debug, "failed to find the darwin interface with the address [ "
            ++ ax.wgLocalAddress ++ " ] " ++ msg⟩
      ∧ ∀ p ∈ cfg.AllowedIPs,
          OsCall.RunCommand
              (routeDeleteArgv p (host.getInterfaceByIP w.history ax.wgLocalAddress).1)
            ∈ (issued w (handlePeerRoute k host ax cfg w)).map Event.call
          ∧ OsCall.AddRoute p (host.getInterfaceByIP w.history ax.wgLocalAddress).1
            ∈ (issued w (handlePeerRoute k host ax cfg w)).map Event.call := by
  constructor
  · have hD : ax.os = k.Darwin := hos
    unfold handlePeerRoute
    simp only [hD, if_true, getInterfaceByIP, herr]
    obtain ⟨rest, hrest⟩ := foldl_logs _ (darwinBody_logs host
      (host.getInterfaceByIP w.history ax.wgLocalAddress).1) cfg.AllowedIPs
      (World.log ⟨w.events ++ [Event.getInterfaceByIP ax.wgLocalAddress
        (host.getInterfaceByIP w.history ax.wgLocalAddress).1 (some msg)], w.logs⟩
        Level.debug ("failed to find the darwin interface with the address [ "
            ++ ax.wgLocalAddress ++ " ] " ++ msg))
    simp only [logged]
    rw [← hrest]
    simp [World.log]
  · intro p hp
    rw [issued_of_events (handlePeerRoute_darwin_events k host ax cfg w hos)]
    simp only [List.map_cons, loopEvents_darwin_calls, List.mem_cons, List.mem_flatMap]
    exact ⟨Or.inr ⟨p, hp, by simp⟩, Or.inr ⟨p, hp, by simp⟩⟩

/-- C9 at a concrete input: a Darwin host on which the interface lookup (and every other
call) fails. -/
theorem handlePeerRoute_darwin_lookup_failure_witness :
    ((failingHost false).getInterfaceByIP [] "100.100.0.1").2 = some "no interface found"
      ∧ (logged World.empty (handlePeerRoute exampleConsts (failingHost false)
          ⟨"darwin", "100.100.0.1"⟩ ⟨["10.0.0.1/32"]⟩ World.empty)).head?
          = some ⟨Level.debug, "failed to find the darwin interface with the address [ "
              ++ "100.100.0.1" ++ " ] " ++ "no interface found"⟩ :=
  ⟨rfl, (handlePeerRoute_darwin_lookup_failure exampleConsts (failingHost false)
    ⟨"darwin", "100.100.0.1"⟩ ⟨["10.0.0.1/32"]⟩ World.empty "no interface found"
    (by decide) rfl).1⟩

/-- C9 as stated fails: on a Darwin host where `getInterfaceByIP` returns an error (and the
empty device name), `handlePeerRoute` still issues the route delete and the route add for
the peer's allowedIP. -/
theorem handlePeerRoute_darwin_lookup_failure_still_routes :
    onDarwin exampleConsts ⟨"darwin", "100.100.0.1"⟩
      ∧ (failingHost false).getInterfaceByIP [] "100.100.0.1" = ("", some "no interface found")
      ∧ (issued World.empty (handlePeerRoute exampleConsts (failingHost false)
          ⟨"darwin", "100.100.0.1"⟩ ⟨["10.0.0.1/32"]⟩ World.empty)).map Event.call
          = [OsCall.getInterfaceByIP "100.100.0.1",
             OsCall.RunCommand ["route", "-q", "-n", "delete", "-inet", "10.0.0.1/32",
               "-interface", ""],
             OsCall.AddRoute "10.0.0.1/32" ""] := by
  refine ⟨by decide, rfl, by decide⟩

/-! ## The endpoint loop of the device listing -/

/-- The endpoint loop appends, in order, the address of every endpoint whose source is not
`local`. -/
theorem endpointBody_foldl_snd (endpoints : List ModelsEndpoint) (st : String × List String) :
    (endpoints.foldl listOrgDevices.endpointBody st).2
      = st.2 ++ (endpoints.filter (fun e => decide (e.Source ≠ "local"))).map
          ModelsEndpoint.Address := by
  induction endpoints generalizing st with
  | nil => simp
  | cons e es ih =>
    rw [List.foldl_cons, ih]
    by_cases h : e.Source = "local" <;> simp [listOrgDevices.endpointBody, h]

/-- C10: for a device whose endpoints all have source `local` or `reflexive`, the
reflexive address list the listing builds is the list of the addresses of the endpoints
whose source is `reflexive`, in their original order (none dropped, none duplicated, and
no address contributed by a `local` endpoint). -/
theorem scanEndpoints_reflexive (endpoints : List ModelsEndpoint)
    (hsrc : ∀ e ∈ endpoints, e.Source = "local" ∨ e.Source = "reflexive") :
    (listOrgDevices.scanEndpoints endpoints).2
      = (endpoints.filter (fun e => decide (e.Source = "reflexive"))).map
          ModelsEndpoint.Address := by
  unfold listOrgDevices.scanEndpoints
  rw [endpointBody_foldl_snd, List.nil_append]
  congr 1
  apply List.filter_congr
  intro e he
  rcases hsrc e he with h | h <;> simp [h]

/-- C10 at a concrete input: a reflexive, a local and a second reflexive endpoint. -/
theorem scanEndpoints_reflexive_witness :
    (listOrgDevices.scanEndpoints
        [⟨"203.0.113.7:51820", 12, "reflexive"⟩, ⟨"192.168.1.5:51820", 0, "local"⟩,
         ⟨"198.51.100.9:40000", 30, "reflexive"⟩]).2
      = ["203.0.113.7:51820", "198.51.100.9:40000"] :=
  scanEndpoints_reflexive
    [⟨"203.0.113.7:51820", 12, "reflexive"⟩, ⟨"192.168.1.5:51820", 0, "local"⟩,
     ⟨"198.51.100.9:40000", 30, "reflexive"⟩] (by decide)

/-! ## The local IP of the device listing -/

/-- The endpoint loop of `listAllDevices` keeps, as local IP, the address of the last
endpoint whose source is `local`, or the local IP it started with. -/
theorem allDevices_endpointBody_foldl_fst (endpoints : List ModelsEndpoint)
    (st : String × List String) :
    (endpoints.foldl listAllDevices.endpointBody st).1
      = (((endpoints.filter (fun e => decide (e.Source = "local"))).getLast?).map
          ModelsEndpoint.Address).getD st.1 := by
  induction endpoints generalizing st with
  | nil => simp
  | cons e es ih =>
    rw [List.foldl_cons, ih]
    by_cases h : e.Source = "local"
    · simp only [listAllDevices.endpointBody, h, if_true, decide_True, List.filter_cons_of_pos,
        List.getLast?_cons, Option.map_some', Option.getD_some]
      cases (es.filter (fun e => decide (e.Source = "local"))).getLast? <;> simp
    · simp [listAllDevices.endpointBody, h]

/-- The two endpoint loops of `device.go` compute the same pair. -/
theorem scanEndpoints_org_eq_all (endpoints : List ModelsEndpoint) :
    listOrgDevices.scanEndpoints endpoints = listAllDevices.scanEndpoints endpoints := rfl

/-- C11: for every endpoint list, the local IP the device listing selects is the address
of the last endpoint whose source is `local`; so it is the address of a `local` endpoint
whenever the device reports one, and the empty string when it reports none. -/
theorem scanEndpoints_local (endpoints : List ModelsEndpoint) :
    (listAllDevices.scanEndpoints endpoints).1
        = (((endpoints.filter (fun e => decide (e.Source = "local"))).getLast?).map
            ModelsEndpoint.Address).getD ""
      ∧ ((∃ e ∈ endpoints, e.Source = "local") →
          ∃ e ∈ endpoints, e.Source = "local"
            ∧ (listAllDevices.scanEndpoints endpoints).1 = e.Address)
      ∧ ((∀ e ∈ endpoints, e.Source ≠ "local") →
          (listAllDevices.scanEndpoints endpoints).1 = "") := by
  have heq := allDevices_endpointBody_foldl_fst endpoints ("", [])
  refine ⟨heq, ?_, ?_⟩
  · rintro ⟨e, he, hloc⟩
    have hne : endpoints.filter (fun e => decide (e.Source = "local")) ≠ [] := by
      intro hnil
      have : e ∈ endpoints.filter (fun e => decide (e.Source = "local")) :=
        List.mem_filter.mpr ⟨he, by simp [hloc]⟩
      rw [hnil] at this
      simp at this
    cases hlast : (endpoints.filter (fun e => decide (e.Source = "local"))).getLast? with
    | none => exact absurd (List.getLast?_eq_none_iff.mp hlast) hne
    | some x =>
      have hx := List.mem_filter.mp (List.mem_of_getLast?_eq_some hlast)
      refine ⟨x, hx.1, by simpa using hx.2, ?_⟩
      unfold listAllDevices.scanEndpoints
      rw [heq, hlast]
      rfl
  · intro hnone
    have hnil : endpoints.filter (fun e => decide (e.Source = "local")) = [] := by
      rw [List.filter_eq_nil_iff]
      intro e he
      simp [hnone e he]
    unfold listAllDevices.scanEndpoints
    rw [heq, hnil]
    rfl

/-- C11 at a concrete input: two `local` endpoints around a reflexive one; the last
`local` one is selected. -/
theorem scanEndpoints_local_witness :
    ∃ e ∈ [(⟨"192.168.1.5:51820", 0, "local"⟩ : ModelsEndpoint),
        ⟨"203.0.113.7:51820", 12, "reflexive"⟩, ⟨"10.0.0.5:51820", 0, "local"⟩],
      e.Source = "local"
        ∧ (listAllDevices.scanEndpoints [⟨"192.168.1.5:51820", 0, "local"⟩,
            ⟨"203.0.113.7:51820", 12, "reflexive"⟩, ⟨"10.0.0.5:51820", 0, "local"⟩]).1
          = e.Address :=
  (scanEndpoints_local [⟨"192.168.1.5:51820", 0, "local"⟩,
    ⟨"203.0.113.7:51820", 12, "reflexive"⟩, ⟨"10.0.0.5:51820", 0, "local"⟩]).2.1
    ⟨⟨"10.0.0.5:51820", 0, "local"⟩, by decide, rfl⟩

/-! ## The compiled chains -/

theorem acceptAll_matchesPacket (p : Packet) : acceptAll.matchesPacket p = true := rfl

theorem denyAll_matchesPacket (p : Packet) : denyAll.matchesPacket p = true := rfl

/-- A chain of rules none of which matches, followed by the default-deny rule, drops. -/
theorem evalChain_append_denyAll (rs : List FilterRule) (p : Packet)
    (h : ∀ r ∈ rs, r.matchesPacket p = false) :
    evalChain (rs ++ [denyAll]) p = some Verdict.drop := by
  induction rs with
  | nil => rfl
  | cons r rs ih =>
    have hr := h r (List.mem_cons_self _ _)
    simp only [List.cons_append, evalChain, hr, Bool.false_eq_true, if_false]
    exact ih (fun r' hr' => h r' (List.mem_cons_of_mem _ hr'))

/-- C12: a direction whose rule list is empty compiles to the single accept-all rule, and
that chain permits every packet; so a group whose inbound (outbound) list is empty permits
all inbound (outbound) traffic, and a group with both lists empty permits all traffic in
both directions. -/
theorem compile_empty_permits_all (g : SecurityGroup) :
    compileDirection [] = [acceptAll]
      ∧ (∀ p, permits (compileDirection []) p = true)
      ∧ (g.inboundRules = [] →
          (compile g).inbound = [acceptAll] ∧ ∀ p, permits (compile g).inbound p = true)
      ∧ (g.outboundRules = [] →
          (compile g).outbound = [acceptAll] ∧ ∀ p, permits (compile g).outbound p = true)
      ∧ (g.inboundRules = [] → g.outboundRules = [] →
          ∀ p, permits (compile g).inbound p = true
            ∧ permits (compile g).outbound p = true) := by
  have hall : ∀ p, permits [acceptAll] p = true := by
    intro p
    simp only [permits, evalChain, acceptAll_matchesPacket, if_true]
    rfl
  refine ⟨rfl, hall, ?_, ?_, ?_⟩
  · intro h
    simp only [compile, h]
    exact ⟨rfl, hall⟩
  · intro h
    simp only [compile, h]
    exact ⟨rfl, hall⟩
  · intro hi ho p
    simp only [compile, hi, ho]
    exact ⟨hall p, hall p⟩

/-- C12 at a concrete input: the group of `TestSecurityGroupsExtended` after its first
update, with an inbound rule and no outbound rule, permits outbound TCP to port 8080. -/
theorem compile_empty_permits_all_witness :
    permits (compile ⟨"sg-1", "org-1", [exampleUdpRule], []⟩).outbound
      ⟨.tcp, 8080, ipv4 100 100 0 2⟩ = true :=
  ((compile_empty_permits_all ⟨"sg-1", "org-1", [exampleUdpRule], []⟩).2.2.2.1 rfl).2
    ⟨.tcp, 8080, ipv4 100 100 0 2⟩

/-- C13: a non-empty rule list compiles to one accept rule per declared rule, in order,
followed by the default-deny rule, which is the last rule of the chain; traffic that
matches none of the declared rules is dropped, in particular traffic that for every
declared rule has the wrong protocol, a port outside the range or an address outside the
`ipRanges`. -/
theorem compile_nonempty_default_deny (rules : List SecurityRule) (hne : rules ≠ []) :
    compileDirection rules = rules.map compileRule ++ [denyAll]
      ∧ (∀ r ∈ rules.map compileRule, r.verdict = Verdict.accept)
      ∧ (compileDirection rules).getLast? = some denyAll
      ∧ denyAll.verdict = Verdict.drop
      ∧ (∀ p, (∀ r ∈ rules, (compileRule r).matchesPacket p = false) →
          evalChain (compileDirection rules) p = some Verdict.drop)
      ∧ (∀ p, (∀ r ∈ rules, matchesProtocol r.protocol p = false
              ∨ matchesPort r.protocol r.fromPort r.toPort p = false
              ∨ matchesAddr r.ipRanges p = false) →
          evalChain (compileDirection rules) p = some Verdict.drop) := by
  have hc : compileDirection rules = rules.map compileRule ++ [denyAll] := by
    cases rules with
    | nil => exact absurd rfl hne
    | cons r rs => rfl
  have hdrop : ∀ p, (∀ r ∈ rules, (compileRule r).matchesPacket p = false) →
      evalChain (compileDirection rules) p = some Verdict.drop := by
    intro p hp
    rw [hc]
    apply evalChain_append_denyAll
    intro r hr
    obtain ⟨r0, hr0, rfl⟩ := List.mem_map.mp hr
    exact hp r0 hr0
  refine ⟨hc, ?_, ?_, rfl, hdrop, ?_⟩
  · intro r hr
    obtain ⟨r0, -, rfl⟩ := List.mem_map.mp hr
    rfl
  · rw [hc]
    simp
  · intro p hp
    apply hdrop
    intro r hr
    rcases hp r hr with h | h | h <;>
      simp [FilterRule.matchesPacket, compileRule, h]

/-- C13 at a concrete input: against the first inbound rule of
`TestSecurityGroupsExtended` (udp, ports 5000 to 6000), TCP to port 5050 from an address
of the rule's CIDR is dropped. -/
theorem compile_nonempty_default_deny_witness :
    evalChain (compileDirection [exampleUdpRule]) ⟨.tcp, 5050, ipv4 100 100 0 1⟩
      = some Verdict.drop :=
  (compile_nonempty_default_deny [exampleUdpRule] (by decide)).2.2.2.2.1
    ⟨.tcp, 5050, ipv4 100 100 0 1⟩ (by decide)

/-! ## The tables of the device listing -/

/-- A loop whose body writes one line per element writes the lines of the elements. -/
theorem foldl_rows (body : List Fprintf → ModelsDevice → List Fprintf)
    (row : ModelsDevice → Fprintf) (hbody : ∀ w dev, body w dev = w ++ [row dev])
    (devices : List ModelsDevice) (w : List Fprintf) :
    devices.foldl body w = w ++ devices.map row := by
  induction devices generalizing w with
  | nil => simp
  | cons dev devices ih => rw [List.foldl_cons, ih, hbody]; simp

theorem orgDeviceBody_full (fs : String) (w : List Fprintf) (dev : ModelsDevice) :
    listOrgDevices.deviceBody true fs w dev
      = w ++ [fullRow listOrgDevices.scanEndpoints fs dev] := rfl

theorem allDeviceBody_full (fs : String) (w : List Fprintf) (dev : ModelsDevice) :
    listAllDevices.deviceBody true fs w dev
      = w ++ [fullRow listAllDevices.scanEndpoints fs dev] := rfl

theorem fullFormat_eq :
    "%s\t%s\t%s\t%s\t%s\t%s\t%s\t%s\t%s\t%s\t%s\t%s\t%s\t%s\t%s\t%s\t%s\n" = fullFormat := by
  decide

/-- The full-display lines of a device loop form a full-display table. -/
theorem fullDisplayTable_of_rows (scan : List ModelsEndpoint → String × List String)
    (devices : List ModelsDevice) (withHeader : Prop) [Decidable withHeader] :
    FullDisplayTable scan devices withHeader
      (Outcome.table
        ((if withHeader then
            [⟨"%s\t%s\t%s\t%s\t%s\t%s\t%s\t%s\t%s\t%s\t%s\t%s\t%s\t%s\t%s\t%s\t%s\n",
              ["DEVICE ID", "HOSTNAME",
               "ENDPOINT IP", "PUBLIC KEY", "ORGANIZATION ID",
               "LOCAL IP", "ALLOWED IPS", "TUNNEL IPV4", "TUNNEL IPV6",
               "CHILD PREFIX", "ORG PREFIX IPV4", "ORG PREFIX IPV6",
               "REFLEXIVE IPv4", "ENDPOINT LOCAL IPv4", "OS", "SECURITY GROUP ID", "RELAY"]⟩]
          else [])
          ++ devices.map (fullRow scan
            "%s\t%s\t%s\t%s\t%s\t%s\t%s\t%s\t%s\t%s\t%s\t%s\t%s\t%s\t%s\t%s\t%s\n"))) := by
  refine ⟨_, _, rfl, ?_, ?_, ?_, ?_⟩
  · intro h; simp [h]
  · intro h; simp [h]
  · intro h hh
    by_cases hw : withHeader
    · simp only [hw, if_true, List.mem_singleton] at hh
      subst hh
      exact ⟨fullFormat_eq, rfl, rfl, rfl⟩
    · simp [hw] at hh
  · intro dev
    exact ⟨fullFormat_eq, rfl, rfl, rfl⟩

/-- C14: when both API calls return the same devices and the encoding is one of the two
table encodings, `listOrgDevices` and `listAllDevices` write the same lines (header and
rows), for either value of `fullDisplay`; and their endpoint loops select the same local
IP and build the same reflexive address list for every device. -/
theorem listOrgDevices_eq_listAllDevices (enc : Encodings) (c : APIClient)
    (organizationID : String) (fullDisplay : Bool) (encodeOut : String)
    (devices : List ModelsDevice)
    (hOrg : c.ListDevicesInOrganization organizationID = Except.ok devices)
    (hAll : c.ListDevices = Except.ok devices)
    (henc : encodeOut = enc.encodeColumn ∨ encodeOut = enc.encodeNoHeader) :
    (∃ writes, listOrgDevices enc c organizationID fullDisplay encodeOut = Outcome.table writes
        ∧ listAllDevices enc c fullDisplay encodeOut = Outcome.table writes)
      ∧ ∀ endpoints,
          listOrgDevices.scanEndpoints endpoints = listAllDevices.scanEndpoints endpoints := by
  refine ⟨?_, fun _ => rfl⟩
  unfold listOrgDevices listAllDevices
  rw [hOrg, hAll]
  simp only [henc, if_true]
  exact ⟨_, rfl, rfl⟩

/-- C14 at a concrete input: the full display of the example device with header. -/
theorem listOrgDevices_eq_listAllDevices_witness :
    listOrgDevices exampleEncodings exampleClient "org-1" true "column"
      = listAllDevices exampleEncodings exampleClient true "column" := by
  obtain ⟨⟨writes, h1, h2⟩, -⟩ := listOrgDevices_eq_listAllDevices exampleEncodings
    exampleClient "org-1" true "column" [exampleDevice] rfl rfl (Or.inl rfl)
  rw [h1, h2]

/-- C15: in the full display of either listing, with a table encoding, the header (written
unless the encoding is `encodeNoHeader`) and every device line have 17 columns; the third
column is headed `ENDPOINT IP`, the sixth `LOCAL IP`, and in every device line both hold
the local IP the endpoint loop selected, which is the empty string when the device has no
`local` endpoint. -/
theorem fullDisplay_columns (enc : Encodings) (c : APIClient) (organizationID : String)
    (encodeOut : String) (devices : List ModelsDevice)
    (hOrg : c.ListDevicesInOrganization organizationID = Except.ok devices)
    (hAll : c.ListDevices = Except.ok devices)
    (henc : encodeOut = enc.encodeColumn ∨ encodeOut = enc.encodeNoHeader) :
    FullDisplayTable listOrgDevices.scanEndpoints devices (encodeOut ≠ enc.encodeNoHeader)
        (listOrgDevices enc c organizationID true encodeOut)
      ∧ FullDisplayTable listAllDevices.scanEndpoints devices
          (encodeOut ≠ enc.encodeNoHeader) (listAllDevices enc c true encodeOut)
      ∧ ∀ endpoints : List ModelsEndpoint, (∀ e ∈ endpoints, e.Source ≠ "local") →
          (listOrgDevices.scanEndpoints endpoints).1 = ""
            ∧ (listAllDevices.scanEndpoints endpoints).1 = "" := by
  refine ⟨?_, ?_, ?_⟩
  · have h := fullDisplayTable_of_rows listOrgDevices.scanEndpoints devices
      (encodeOut ≠ enc.encodeNoHeader)
    unfold listOrgDevices
    rw [hOrg]
    simp only [henc, if_true, Bool.not_true, Bool.false_eq_true, and_false, if_false,
      and_true, List.nil_append]
    rw [foldl_rows _ _ (orgDeviceBody_full _)]
    exact h
  · have h := fullDisplayTable_of_rows listAllDevices.scanEndpoints devices
      (encodeOut ≠ enc.encodeNoHeader)
    unfold listAllDevices
    rw [hAll]
    simp only [henc, if_true, Bool.not_true, Bool.false_eq_true, and_false, if_false,
      and_true, List.nil_append]
    rw [foldl_rows _ _ (allDeviceBody_full _)]
    exact h
  · intro endpoints hnone
    have hnil : endpoints.filter (fun e => decide (e.Source = "local")) = [] := by
      rw [List.filter_eq_nil_iff]
      intro e he
      simp [hnone e he]
    have hall : (listAllDevices.scanEndpoints endpoints).1 = "" := by
      unfold listAllDevices.scanEndpoints
      rw [allDevices_endpointBody_foldl_fst, hnil]
      rfl
    exact ⟨hall, hall⟩

/-- C15 at a concrete input: the full display of the example device with header. -/
theorem fullDisplay_columns_witness :
    FullDisplayTable listOrgDevices.scanEndpoints [exampleDevice]
      ("column" ≠ exampleEncodings.encodeNoHeader)
      (listOrgDevices exampleEncodings exampleClient "org-1" true "column") :=
  (fullDisplay_columns exampleEncodings exampleClient "org-1" "column" [exampleDevice]
    rfl rfl (Or.inl rfl)).1

/-! ## `handlePeerRoute` on an unknown OS -/

/-- C16: when `ax.os` is none of the Darwin, Linux and Windows strings, `handlePeerRoute`
leaves the world as it is: it issues no OS call (no interface lookup, no existence check,
no route delete, no route add) and logs nothing, for any allowedIPs list. -/
theorem handlePeerRoute_unknown_os (k : Consts) (host : Host) (ax : Apex)
    (cfg : wgPeerConfig) (w : World)
    (hd : ax.os ≠ k.Darwin) (hl : ax.os ≠ k.Linux) (hw : ax.os ≠ k.Windows) :
    handlePeerRoute k host ax cfg w = w
      ∧ issued w (handlePeerRoute k host ax cfg w) = []
      ∧ logged w (handlePeerRoute k host ax cfg w) = [] := by
  have h : handlePeerRoute k host ax cfg w = w := by
    unfold handlePeerRoute
    rw [if_neg hd, if_neg hl, if_neg hw]
  rw [h]
  exact ⟨rfl, by simp [issued], by simp [logged]⟩

/-- C16 at a concrete input: the OS string `freebsd`, two allowedIPs. -/
theorem handlePeerRoute_unknown_os_witness :
    issued World.empty (handlePeerRoute exampleConsts (idealHost [] "utun3")
      ⟨"freebsd", "100.100.0.1"⟩ ⟨["10.0.0.1/32", "10.0.0.2/32"]⟩ World.empty) = [] :=
  (handlePeerRoute_unknown_os exampleConsts (idealHost [] "utun3")
    ⟨"freebsd", "100.100.0.1"⟩ ⟨["10.0.0.1/32", "10.0.0.2/32"]⟩ World.empty
    (by decide) (by decide) (by decide)).2.1

end Nexodus
